import Mathlib

/- Verification development for the manifesto MSS-to-DASH streaming translator.
   The Go sources are shallowly embedded: byte strings become `List Nat`
   (each element < 256 where it matters), Go strings become Lean `String` or
   `List Char`, fallible functions return `Option` or `Except String`, and a
   Go runtime panic is a distinguished outcome of a dedicated result type.
   External library calls (Eyevinn/mp4ff, encoding/xml tokenization,
   avc SPS parsing) are modelled from the library versions pinned in go.mod,
   or taken as explicit function parameters where only their opacity matters;
   each such place is marked in its doc comment. -/

namespace Manifesto

/-- Decimal digit character for a single digit 0..9. Inputs outside 0..9 do
    not occur (guarded by `Nat.digits` bounds). -/
def digitChar (d : Nat) : Char :=
  match d with
  | 0 => '0' | 1 => '1' | 2 => '2' | 3 => '3' | 4 => '4'
  | 5 => '5' | 6 => '6' | 7 => '7' | 8 => '8' | _ => '9'

/-- Fuel-based digit expansion (kernel-computable; the fuel n always
    suffices since a number has at most n decimal digits). -/
def natDecimalCharsAux : Nat → Nat → List Char
  | 0, _ => []
  | fuel + 1, n =>
    if n = 0 then [] else natDecimalCharsAux fuel (n / 10) ++ [digitChar (n % 10)]

/-- Decimal digit characters of a natural number, most significant first.
    Mirrors the output of Go fmt/%d and strconv for non-negative values. -/
def natDecimalChars (n : Nat) : List Char :=
  if n = 0 then ['0'] else natDecimalCharsAux n n

/-- Embedding of Go fmt.Sprintf("%d", i) for a Go int. -/
def goItoaInt (i : Int) : String :=
  if i < 0 then String.mk ('-' :: natDecimalChars i.natAbs)
  else String.mk (natDecimalChars i.natAbs)

/-- Is an ASCII decimal digit. -/
def isDigitChar (c : Char) : Bool :=
  48 ≤ c.toNat && c.toNat ≤ 57

/-- Value accumulation of strconv decimal parsing: fold digits left to right. -/
def atoiDigits (cs : List Char) : Nat :=
  cs.foldl (fun a c => a * 10 + (c.toNat - 48)) 0

/-- Embedding of Go strconv.Atoi (strconv.ParseInt base 10): optional single
    leading sign, then one or more decimal digits and nothing else. The Go
    function additionally errors when the value overflows a 64-bit int; every
    string produced by fmt/%d from a Go int re-parses without overflow, so the
    overflow branch is irrelevant to the round-trip property and not modelled. -/
def goAtoi (s : List Char) : Option Int :=
  match s with
  | [] => none
  | c :: rest =>
    let digits := if c = '-' || c = '+' then rest else s
    let neg := c = '-'
    if digits = [] then none
    else if digits.all isDigitChar then
      some (if neg then -(atoiDigits digits : Int) else (atoiDigits digits : Int))
    else none

/-- Accumulator loop for `lastIndexOfChar`. -/
def lastIndexOfCharAux (c : Char) : List Char → Nat → Option Nat → Option Nat
  | [], _, acc => acc
  | x :: xs, i, acc => lastIndexOfCharAux c xs (i + 1) (if x = c then some i else acc)

/-- Index of the last occurrence of a character, as in Go strings.LastIndex
    with a one-character needle. Go reports a byte index; every use below
    searches for the single-byte character `_`, which in UTF-8 can only occur
    as a complete character, so the character-level index identifies the same
    split point. -/
def lastIndexOfChar (s : List Char) (c : Char) : Option Nat :=
  lastIndexOfCharAux c s 0 none

/-- Embedding of the rep-id construction in SmoothToDashManifest:
    fmt.Sprintf("%s_%d", streamIndexName, qualityLevel.Index). -/
def buildRepId (streamIndexName : String) (index : Int) : String :=
  streamIndexName ++ "_" ++ goItoaInt index

/-- Embedding of the rep-id parsing shared by InitHandler and SegmentHandler:
    find the LAST underscore, reject ids with none or with a trailing one,
    split there and parse the right part with strconv.Atoi. -/
def splitQualityId (qualityId : String) : Option (String × Int) :=
  match lastIndexOfChar qualityId.data '_' with
  | none => none
  | some i =>
    if i = qualityId.data.length - 1 then none
    else
      match goAtoi (qualityId.data.drop (i + 1)) with
      | none => none
      | some idx => some (String.mk (qualityId.data.take i), idx)

/- Byte-string helpers: hex, base64, UTF-16 (little endian). -/

/-- Value of one hex digit, as accepted by Go encoding/hex. -/
def hexVal (c : Char) : Option Nat :=
  if 48 ≤ c.toNat && c.toNat ≤ 57 then some (c.toNat - 48)
  else if 97 ≤ c.toNat && c.toNat ≤ 102 then some (c.toNat - 87)
  else if 65 ≤ c.toNat && c.toNat ≤ 70 then some (c.toNat - 55)
  else none

/-- Embedding of Go hex.DecodeString: pairs of hex digits; odd length or a
    non-hex character is an error. -/
def hexDecode : List Char → Option (List Nat)
  | [] => some []
  | [_] => none
  | c1 :: c2 :: rest =>
    match hexVal c1, hexVal c2 with
    | some v1, some v2 =>
      match hexDecode rest with
      | some tl => some ((v1 * 16 + v2) :: tl)
      | none => none
    | _, _ => none

/-- Value of one standard base64 alphabet character (padding excluded). -/
def b64Val (c : Char) : Option Nat :=
  if 65 ≤ c.toNat && c.toNat ≤ 90 then some (c.toNat - 65)
  else if 97 ≤ c.toNat && c.toNat ≤ 122 then some (c.toNat - 71)
  else if 48 ≤ c.toNat && c.toNat ≤ 57 then some (c.toNat + 4)
  else if c = '+' then some 62
  else if c = '/' then some 63
  else none

/-- Embedding of Go base64.StdEncoding.DecodeString: quanta of four
    characters, padding only in the final quantum (one byte for xx==, two
    for xxx=), any other shape is an error. Trailing-bit garbage is ignored,
    as by the default (non-strict) Go decoder. The Go decoder additionally
    skips CR and LF characters; no input in this development contains them,
    so that filter is not modelled. -/
def base64Decode : List Char → Option (List Nat)
  | [] => some []
  | c1 :: c2 :: c3 :: c4 :: rest =>
    match b64Val c1, b64Val c2 with
    | some v1, some v2 =>
      if c3 = '=' then
        if c4 = '=' && rest.isEmpty then some [v1 * 4 + v2 / 16] else none
      else
        match b64Val c3 with
        | some v3 =>
          if c4 = '=' then
            if rest.isEmpty then some [v1 * 4 + v2 / 16, (v2 % 16) * 16 + v3 / 4] else none
          else
            match b64Val c4 with
            | some v4 =>
              match base64Decode rest with
              | some tl =>
                some ((v1 * 4 + v2 / 16) :: ((v2 % 16) * 16 + v3 / 4)
                  :: ((v3 % 4) * 64 + v4) :: tl)
              | none => none
            | none => none
        | none => none
    | _, _ => none
  | _ => none

/-- Character of the standard base64 alphabet for a 6-bit value. -/
def b64Char (v : Nat) : Char :=
  if v < 26 then Char.ofNat (65 + v)
  else if v < 52 then Char.ofNat (71 + v)
  else if v < 62 then Char.ofNat (v - 4)
  else if v = 62 then '+'
  else '/'

/-- Embedding of Go base64.StdEncoding.EncodeToString on a byte list. -/
def base64EncodeChars : List Nat → List Char
  | [] => []
  | [b1] => [b64Char (b1 / 4), b64Char (b1 % 4 * 16), '=', '=']
  | [b1, b2] => [b64Char (b1 / 4), b64Char (b1 % 4 * 16 + b2 / 16), b64Char (b2 % 16 * 4), '=']
  | b1 :: b2 :: b3 :: rest =>
    b64Char (b1 / 4) :: b64Char (b1 % 4 * 16 + b2 / 16) :: b64Char (b2 % 16 * 4 + b3 / 64)
      :: b64Char (b3 % 64) :: base64EncodeChars rest

/-- String form of `base64EncodeChars`. -/
def base64Encode (bs : List Nat) : String :=
  String.mk (base64EncodeChars bs)

/-- Embedding of Go unicode/utf16 Decode: well-formed surrogate pairs are
    combined, anything unpaired becomes U+FFFD, and other code units pass
    through. -/
def utf16DecodeList : List Nat → List Char
  | [] => []
  | w :: rest =>
    if 0xD800 ≤ w && w < 0xDC00 then
      match rest with
      | w2 :: rest2 =>
        if 0xDC00 ≤ w2 && w2 < 0xE000 then
          Char.ofNat (0x10000 + (w - 0xD800) * 0x400 + (w2 - 0xDC00)) :: utf16DecodeList rest2
        else Char.ofNat 0xFFFD :: utf16DecodeList (w2 :: rest2)
      | [] => [Char.ofNat 0xFFFD]
    else if 0xDC00 ≤ w && w < 0xE000 then Char.ofNat 0xFFFD :: utf16DecodeList rest
    else Char.ofNat w :: utf16DecodeList rest

/- PlayReady key-id extraction (internal/utils, ExtractPRKeyIdFromPssh). -/

/-- The 16-bit code units that ExtractPRKeyIdFromPssh builds from the PSSH
    bytes: shorts[i] = data[10+2i] | data[11+2i] << 8, for
    i < (len(data)-10)/2 (natural subtraction matches the Go int division
    for all lengths at which the Go code does not panic). -/
def prShorts (data : List Nat) : List Nat :=
  (List.range ((data.length - 10) / 2)).map
    (fun i => data.getD (10 + 2 * i) 0 + 256 * data.getD (11 + 2 * i) 0)

/-- Character class of the KID regular expression: [a-zA-Z0-9+/=]. -/
def isKidPayloadChar (c : Char) : Bool :=
  (97 ≤ c.toNat && c.toNat ≤ 122) || (65 ≤ c.toNat && c.toNat ≤ 90)
    || (48 ≤ c.toNat && c.toNat ≤ 57) || c = '+' || c = '/' || c = '='

/-- Match of the regular expression KID capture at one fixed position: the
    literal KID open tag, then a maximal non-empty run of payload characters,
    then the close tag. Because the character class excludes the angle
    bracket, a match of Go PlayReadyRegexp at this position exists exactly
    when the maximal run is non-empty and followed by the close tag, and the
    greedy capture is that maximal run. -/
def matchKidAt (s : List Char) : Option (List Char) :=
  if s.take 5 = "<KID>".data then
    let run := (s.drop 5).takeWhile isKidPayloadChar
    let after := (s.drop 5).dropWhile isKidPayloadChar
    if !run.isEmpty && after.take 6 = "</KID>".data then some run else none
  else none

/-- Leftmost match of PlayReadyRegexp, capture group 1
    (regexp.FindStringSubmatch). The Go regexp scans bytes of the UTF-8
    string; the pattern is pure ASCII and ASCII bytes never occur inside a
    multi-byte UTF-8 sequence, so the character-level scan finds the same
    match. -/
def findKid : List Char → Option (List Char)
  | [] => none
  | c :: rest =>
    match matchKidAt (c :: rest) with
    | some payload => some payload
    | none => findKid rest

/-- Big-endian UUID reordering of the 16 decoded KID bytes, exactly the
    index pattern written out in ExtractPRKeyIdFromPssh. -/
def kidReorder (b : List Nat) : List Nat :=
  [b.getD 3 0, b.getD 2 0, b.getD 1 0, b.getD 0 0,
   b.getD 5 0, b.getD 4 0,
   b.getD 7 0, b.getD 6 0,
   b.getD 8 0, b.getD 9 0,
   b.getD 10 0, b.getD 11 0, b.getD 12 0, b.getD 13 0, b.getD 14 0, b.getD 15 0]

/-- Result of the Go pair ([]byte, error) returned by ExtractPRKeyIdFromPssh,
    with the runtime panic of make([]uint16, negative) as a distinguished
    outcome (it happens for inputs shorter than 9 bytes). -/
inductive PRKidOutcome where
  | crashed
  | ret (kid : Option (List Nat)) (errReported : Bool)
deriving DecidableEq, Repr

/-- Embedding of ExtractPRKeyIdFromPssh: decode UTF-16LE text starting at
    byte offset 10, find the first KID element via the regular expression,
    base64-decode the payload; on decode error return (nil, err); when the
    decoded length is not 16 return (nil, nil); otherwise return the
    reordered 16 bytes with no error. -/
def extractPRKeyIdFromPssh (data : List Nat) : PRKidOutcome :=
  if data.length < 9 then .crashed
  else
    match findKid (utf16DecodeList (prShorts data)) with
    | none => .ret none false
    | some payload =>
      match base64Decode payload with
      | none => .ret none true
      | some keyBytes =>
        if keyBytes.length ≠ 16 then .ret none false
        else .ret (some (kidReorder keyBytes)) false

/-- UTF-16LE code-unit expansion of an ASCII string, used to build concrete
    WRMHEADER-like byte inputs for witnesses. -/
def asciiToUtf16leBytes (s : String) : List Nat :=
  s.data.flatMap (fun c => [c.toNat % 256, c.toNat / 256])

/-- Concrete witness input for C3: ten header bytes, then the UTF-16LE bytes
    of a KID element whose payload is the base64 of bytes 0,1,...,15. -/
def c3Data : List Nat :=
  [0, 0, 0, 0, 0, 0, 0, 0, 0, 0]
    ++ asciiToUtf16leBytes "<KID>AAECAwQFBgcICQoLDA0ODw==</KID>"

/-- Concrete input for C4: same shape, but the payload decodes to 15 bytes. -/
def c4Data : List Nat :=
  [0, 0, 0, 0, 0, 0, 0, 0, 0, 0]
    ++ asciiToUtf16leBytes "<KID>AAECAwQFBgcICQoLDA0O</KID>"

/- EC-3 private-data parsing (segment/audio, de3_init.go). -/

/-- Outcome of a Go call that can return a value, return an error, or panic. -/
inductive GoCall (α : Type) where
  | ok : α → GoCall α
  | err : String → GoCall α
  | crashed : GoCall α
deriving DecidableEq, Repr

/-- The sixteen DDP_WAVEFORMAT_GUID bytes from de3_init.go. -/
def ddpWaveformatGuid : List Nat :=
  [0xaf, 0x87, 0xfb, 0xa7, 0x02, 0x2d, 0xfb, 0x42,
   0xa4, 0xd4, 0x05, 0xcd, 0x93, 0x84, 0x3b, 0xdd]

/-- Embedding of extractDolbyDigitalPlusInfo. The Go body immediately slices
    info[6:22]; when the input is shorter than 22 bytes that slice expression
    panics (slice bounds out of range), which the model records as `crashed`.
    Otherwise the sixteen bytes at offset 6 are compared against the GUID and
    the remainder after the GUID is returned. -/
def extractDolbyDigitalPlusInfo (info : List Nat) : GoCall (List Nat) :=
  if info.length < 22 then .crashed
  else if (info.drop 6).take 16 = ddpWaveformatGuid then .ok (info.drop 22)
  else .err "invalid DDP_WAVEFORMAT_GUID"

/-- Embedding of CodecPrivateDataToDec3Box. The final call into the external
    mp4ff box decoder (mp4.DecodeDec3) is taken as the parameter
    `dec3Decode`; `none` stands for its error or nil-box result, which the Go
    code folds into one failure branch. -/
def codecPrivateDataToDec3Box {α : Type} (dec3Decode : List Nat → Option α)
    (codecPrivateDataHex : String) : GoCall α :=
  match hexDecode codecPrivateDataHex.data with
  | none => .err "hex decode error"
  | some codecPrivateData =>
    if codecPrivateData.length < 2 then .err "invalid codecPrivateData length"
    else
      match extractDolbyDigitalPlusInfo codecPrivateData with
      | .crashed => .crashed
      | .err e => .err e
      | .ok payload =>
        match dec3Decode payload with
        | none => .err "failed to decode Dec3Box"
        | some box => .ok box

/- TTML timestamp rebasing (segment/subtitle/subtitle_segment.go).
   Go float64 time arithmetic is modelled exactly over the rationals; every
   value exercised by the spec (millisecond timestamps, tick counts divided
   by a positive timescale) is exactly representable, where float64 and exact
   arithmetic agree. The rationals are carried as unnormalized
   numerator/denominator pairs (`Frac`) so that every operation is plain
   integer arithmetic; the denominator is positive for every value built
   from a positive timescale (Go divides by timescale in float64, where a
   zero timescale yields Inf/NaN: that region is outside the model). -/

/-- Exact unnormalized fraction. -/
structure Frac where
  num : Int
  den : Int
deriving DecidableEq, Repr

def Frac.ofInt (i : Int) : Frac := ⟨i, 1⟩

def Frac.ofNat (n : Nat) : Frac := ⟨(n : Int), 1⟩

def Frac.add (a b : Frac) : Frac := ⟨a.num * b.den + b.num * a.den, a.den * b.den⟩

def Frac.sub (a b : Frac) : Frac := ⟨a.num * b.den - b.num * a.den, a.den * b.den⟩

def Frac.neg (a : Frac) : Frac := ⟨-a.num, a.den⟩

def Frac.mulNat (a : Frac) (n : Nat) : Frac := ⟨a.num * (n : Int), a.den⟩

def Frac.divNat (a : Frac) (n : Nat) : Frac := ⟨a.num, a.den * (n : Int)⟩

/-- a < b for positive denominators. -/
def Frac.lt (a b : Frac) : Bool := a.num * b.den < b.num * a.den

def Frac.isNeg (a : Frac) : Bool := a.num < 0

/-- Floor for positive denominator (Euclidean/floor division of Int). -/
def Frac.floor (a : Frac) : Int := Int.fdiv a.num a.den

/-- Truncation toward zero, the Go float64-to-int conversion. -/
def ratTrunc (q : Frac) : Int := Int.tdiv q.num q.den

/-- Round to nearest, ties to even: the rounding of Go fmt %f output. -/
def roundHalfEven (q : Frac) : Int :=
  let f := q.floor
  let r := q.sub (Frac.ofInt f)
  if r.lt ⟨1, 2⟩ then f
  else if Frac.lt ⟨1, 2⟩ r then f + 1
  else if f % 2 = 0 then f else f + 1

/-- Left-pad the decimal form of a natural number with zeros to a width. -/
def padNat (width : Nat) (n : Nat) : String :=
  let ds := natDecimalChars n
  String.mk (List.replicate (width - ds.length) '0' ++ ds)

/-- Go fmt %02d of an int: zero padding counts the sign. -/
def pad2Int (i : Int) : String :=
  if i < 0 then
    let ds := natDecimalChars i.natAbs
    String.mk ('-' :: List.replicate (1 - ds.length) '0' ++ ds)
  else padNat 2 i.natAbs

/-- Go fmt %06.3f: three rounded decimals, zero-padded to width six (two
    integer digits for the magnitudes that occur here). -/
def fixed3 (q : Frac) : String :=
  if q.isNeg then
    let ms := (roundHalfEven (q.neg.mulNat 1000)).toNat
    "-" ++ padNat 1 (ms / 1000) ++ "." ++ padNat 3 (ms % 1000)
  else
    let ms := (roundHalfEven (q.mulNat 1000)).toNat
    padNat 2 (ms / 1000) ++ "." ++ padNat 3 (ms % 1000)

/-- Embedding of formatTTMLTime: HH:MM:SS.fff via Sprintf
    %02d:%02d:%06.3f with Go int truncation, division and remainder. -/
def formatTTMLTime (seconds : Frac) : String :=
  let t := ratTrunc seconds
  let h := Int.tdiv t 3600
  let m := Int.tdiv (Int.tmod t 3600) 60
  let s := seconds.sub (Frac.ofInt (h * 3600 + m * 60))
  pad2Int h ++ ":" ++ pad2Int m ++ ":" ++ fixed3 s

/-- Whitespace skipped by fmt verbs. -/
def isGoSpace (c : Char) : Bool :=
  c = ' ' || c = '\t' || c = '\n' || c = '\r'

/-- Scan of one decimal integer as by the fmt %d verb: skip spaces, optional
    sign, at least one digit; returns the value and the rest. -/
def scanInt (cs : List Char) : Option (Int × List Char) :=
  let cs1 := cs.dropWhile isGoSpace
  let signed := cs1.head? = some '-'
  let cs2 := if cs1.head? = some '-' || cs1.head? = some '+' then cs1.tail else cs1
  let ds := cs2.takeWhile isDigitChar
  if ds.isEmpty then none
  else
    let v : Int := (atoiDigits ds : Nat)
    some (if signed then -v else v, cs2.dropWhile isDigitChar)

/-- Scan of one decimal floating-point literal as consumed by the fmt %f
    verb: skip spaces, optional sign, digits with an optional fractional
    part (at least one digit overall), and an optional exponent. The Go verb
    also accepts hexadecimal floats and inf/NaN words, which never appear in
    TTML timestamps and are not modelled. The value is exact. -/
def scanFloatQ (cs : List Char) : Option (Frac × List Char) :=
  let cs1 := cs.dropWhile isGoSpace
  let signed := cs1.head? = some '-'
  let cs2 := if cs1.head? = some '-' || cs1.head? = some '+' then cs1.tail else cs1
  let ip := cs2.takeWhile isDigitChar
  let cs3 := cs2.dropWhile isDigitChar
  let hasDot := cs3.head? = some '.'
  let cs4 := if hasDot then cs3.tail else cs3
  let fp := if hasDot then cs4.takeWhile isDigitChar else []
  let cs5 := if hasDot then cs4.dropWhile isDigitChar else cs3
  if ip.isEmpty && fp.isEmpty then none
  else
    let mant : Frac := (Frac.ofNat (atoiDigits ip)).add
      ((Frac.ofNat (atoiDigits fp)).divNat (10 ^ fp.length))
    let mant := if signed then mant.neg else mant
    if cs5.head? = some 'e' || cs5.head? = some 'E' then
      let cs6 := cs5.tail
      let esigned := cs6.head? = some '-'
      let cs7 := if cs6.head? = some '-' || cs6.head? = some '+' then cs6.tail else cs6
      let eds := cs7.takeWhile isDigitChar
      if eds.isEmpty then none
      else
        let e := atoiDigits eds
        let value := if esigned then mant.divNat (10 ^ e) else mant.mulNat (10 ^ e)
        some (value, cs7.dropWhile isDigitChar)
    else some (mant, cs5)

/-- Embedding of parseTTMLTime: values with a colon go through
    Sscanf(%d:%d:%f) and yield h*3600+m*60+s; bare values go through
    strconv.ParseFloat, which requires the whole string to be consumed. -/
def parseTTMLTime (value : String) : Option Frac :=
  if value.data.contains ':' then
    match scanInt value.data with
    | none => none
    | some (h, r1) =>
      match r1 with
      | ':' :: r2 =>
        match scanInt r2 with
        | none => none
        | some (m, r3) =>
          match r3 with
          | ':' :: r4 =>
            match scanFloatQ r4 with
            | none => none
            | some (s, _) =>
              some ((((Frac.ofInt h).mulNat 3600).add ((Frac.ofInt m).mulNat 60)).add s)
          | _ => none
      | _ => none
  else
    match scanFloatQ value.data with
    | none => none
    | some (v, rest) => if rest.isEmpty then some v else none

/- XML token stream (encoding/xml RawToken) and the TTML rewriting loop. -/

structure XmlName where
  space : String
  localName : String
deriving DecidableEq, Repr

structure XmlAttr where
  name : XmlName
  value : String
deriving DecidableEq, Repr

/-- The token forms handled by the UpdateTTMLToAbsoluteTimestamps switch. -/
inductive XmlToken where
  | startElem (name : XmlName) (attrs : List XmlAttr)
  | endElem (name : XmlName)
  | charData (text : String)
  | comment (text : String)
  | procInst (target inst : String)
  | directive (text : String)
deriving DecidableEq, Repr

/-- Embedding of Go html.EscapeString. -/
def htmlEscape (s : String) : String :=
  String.join (s.data.map (fun c =>
    if c = '&' then "&amp;"
    else if c = '<' then "&lt;"
    else if c = '>' then "&gt;"
    else if c = '"' then "&#34;"
    else String.mk [c]))

/-- The begin/end rewriting applied to one attribute of a p element: on a
    parse success the value becomes the absolute formatted time, otherwise it
    is left alone. -/
def updateAttrValue (segmentStartSeconds : Frac) (a : XmlAttr) : XmlAttr :=
  if a.name.localName = "begin" || a.name.localName = "end" then
    match parseTTMLTime a.value with
    | some seconds => { a with value := formatTTMLTime (seconds.add segmentStartSeconds) }
    | none => a
  else a

/-- Embedding of writeAttr. -/
def writeAttrStr (a : XmlAttr) : String :=
  if a.name.space ≠ "" then
    " " ++ a.name.space ++ ":" ++ a.name.localName ++ "=\"" ++ a.value ++ "\""
  else " " ++ a.name.localName ++ "=\"" ++ a.value ++ "\""

/-- Output text of one token, mirroring the switch in
    UpdateTTMLToAbsoluteTimestamps (p elements get their begin and end
    attributes rebased; other start elements are echoed; end elements print
    the local name; character data is HTML-escaped). -/
def processToken (segmentStartSeconds : Frac) : XmlToken → String
  | .startElem name attrs =>
    if name.localName = "p" then
      "<" ++ name.localName
        ++ String.join (attrs.map (fun a => writeAttrStr (updateAttrValue segmentStartSeconds a)))
        ++ ">"
    else
      "<" ++ name.localName ++ String.join (attrs.map writeAttrStr) ++ ">"
  | .endElem name => "</" ++ name.localName ++ ">"
  | .charData s => htmlEscape s
  | .comment s => "<!--" ++ s ++ "-->"
  | .procInst target inst => "<?" ++ target ++ " " ++ inst ++ "?>"
  | .directive s => "<!" ++ s ++ ">"

/-- The whole token loop of UpdateTTMLToAbsoluteTimestamps. -/
def updateTTMLTokens (tokens : List XmlToken) (segmentStartSeconds : Frac) : String :=
  String.join (tokens.map (processToken segmentStartSeconds))

/- A tokenizer for the XML subset that appears in TTML subtitle payloads,
   modelled from encoding/xml Decoder.RawToken (external library): names are
   split at the first colon into (prefix, local); a self-closing tag yields a
   start element followed by an end element; entities in text and attribute
   values are expanded; unknown syntax is an error. It is used only to run
   the embedded subtitle processor on concrete payloads. -/

/-- Standard entity expansion for the five predefined XML entities and
    decimal character references. -/
def xmlUnescapeRun (fuel : Nat) (cs : List Char) : Option (List Char) :=
  match fuel with
  | 0 => none
  | fuel + 1 =>
    match cs with
    | [] => some []
    | '&' :: rest =>
      let body := rest.takeWhile (fun c => c ≠ ';')
      let after := rest.dropWhile (fun c => c ≠ ';')
      match after with
      | ';' :: tl =>
        let repl : Option (List Char) :=
          if body = "amp".data then some ['&']
          else if body = "lt".data then some ['<']
          else if body = "gt".data then some ['>']
          else if body = "quot".data then some ['"']
          else if body = "apos".data then some [Char.ofNat 39]
          else match body with
            | '#' :: ds => if ds ≠ [] && ds.all isDigitChar
                then some [Char.ofNat (atoiDigits ds)] else none
            | _ => none
        match repl, xmlUnescapeRun fuel tl with
        | some r, some tl2 => some (r ++ tl2)
        | _, _ => none
      | _ => none
    | c :: rest =>
      match xmlUnescapeRun fuel rest with
      | some tl => some (c :: tl)
      | none => none

/-- Name characters of the XML subset tokenizer. -/
def isXmlNameChar (c : Char) : Bool :=
  !(isGoSpace c) && c ≠ '>' && c ≠ '/' && c ≠ '=' && c ≠ '<' && c ≠ '"'

/-- Split an XML name at the first colon into (space, local). -/
def splitXmlName (cs : List Char) : XmlName :=
  let pre := cs.takeWhile (fun c => c ≠ ':')
  let post := cs.dropWhile (fun c => c ≠ ':')
  match post with
  | ':' :: l => ⟨String.mk pre, String.mk l⟩
  | _ => ⟨"", String.mk pre⟩

/-- Attribute list scanning inside a start tag. Returns the attributes and
    the rest beginning with the tag terminator. -/
def xmlScanAttrs (fuel : Nat) (cs : List Char) : Option (List XmlAttr × List Char) :=
  match fuel with
  | 0 => none
  | fuel + 1 =>
    let cs1 := cs.dropWhile isGoSpace
    match cs1 with
    | [] => none
    | '>' :: _ => some ([], cs1)
    | '/' :: _ => some ([], cs1)
    | _ =>
      let nm := cs1.takeWhile isXmlNameChar
      let cs2 := (cs1.dropWhile isXmlNameChar).dropWhile isGoSpace
      match cs2 with
      | '=' :: cs3 =>
        match cs3.dropWhile isGoSpace with
        | '"' :: cs4 =>
          let raw := cs4.takeWhile (fun c => c ≠ '"')
          match cs4.dropWhile (fun c => c ≠ '"'), xmlUnescapeRun (raw.length + 1) raw with
          | '"' :: cs5, some v =>
            match xmlScanAttrs fuel cs5 with
            | some (attrs, rest) => some (⟨splitXmlName nm, String.mk v⟩ :: attrs, rest)
            | none => none
          | _, _ => none
        | _ => none
      | _ => none

/-- Scan to the first comment terminator, returning body and rest. -/
def findCommentEnd (fl : Nat) (l : List Char) (acc : List Char) :
    Option (List Char × List Char) :=
  match fl, l with
  | 0, _ => none
  | _, [] => none
  | fl + 1, c :: tl =>
    match l with
    | '-' :: '-' :: '>' :: tl2 => some (acc.reverse, tl2)
    | _ => findCommentEnd fl tl (c :: acc)

/-- Scan to the first processing-instruction terminator. -/
def findPiEnd (fl : Nat) (l : List Char) (acc : List Char) :
    Option (List Char × List Char) :=
  match fl, l with
  | 0, _ => none
  | _, [] => none
  | fl + 1, c :: tl =>
    match l with
    | '?' :: '>' :: tl2 => some (acc.reverse, tl2)
    | _ => findPiEnd fl tl (c :: acc)

/-- One level of the XML subset tokenizer; fuel bounds recursion depth. -/
def xmlTokensAux (fuel : Nat) (cs : List Char) : Option (List XmlToken) :=
  match fuel with
  | 0 => none
  | fuel + 1 =>
    match cs with
    | [] => some []
    | '<' :: '/' :: rest =>
      let nm := rest.takeWhile (fun c => c ≠ '>')
      match rest.dropWhile (fun c => c ≠ '>') with
      | '>' :: tl =>
        match xmlTokensAux fuel tl with
        | some ts => some (.endElem (splitXmlName nm) :: ts)
        | none => none
      | _ => none
    | '<' :: '!' :: '-' :: '-' :: rest =>
      match findCommentEnd (rest.length + 1) rest [] with
      | some (body, tl) =>
        match xmlTokensAux fuel tl with
        | some ts => some (.comment (String.mk body) :: ts)
        | none => none
      | none => none
    | '<' :: '!' :: rest =>
      let body := rest.takeWhile (fun c => c ≠ '>')
      match rest.dropWhile (fun c => c ≠ '>') with
      | '>' :: tl =>
        match xmlTokensAux fuel tl with
        | some ts => some (.directive (String.mk body) :: ts)
        | none => none
      | _ => none
    | '<' :: '?' :: rest =>
      let target := rest.takeWhile (fun c => !(isGoSpace c) && c ≠ '?')
      let afterTarget := (rest.dropWhile (fun c => !(isGoSpace c) && c ≠ '?')).dropWhile isGoSpace
      match findPiEnd (afterTarget.length + 1) afterTarget [] with
      | some (inst, tl) =>
        match xmlTokensAux fuel tl with
        | some ts => some (.procInst (String.mk target) (String.mk inst) :: ts)
        | none => none
      | none => none
    | '<' :: rest =>
      let nm := rest.takeWhile isXmlNameChar
      if nm.isEmpty then none
      else
        match xmlScanAttrs (rest.length + 1) (rest.drop nm.length) with
        | some (attrs, '>' :: tl) =>
          match xmlTokensAux fuel tl with
          | some ts => some (.startElem (splitXmlName nm) attrs :: ts)
          | none => none
        | some (attrs, '/' :: '>' :: tl) =>
          match xmlTokensAux fuel tl with
          | some ts => some (.startElem (splitXmlName nm) attrs
              :: .endElem (splitXmlName nm) :: ts)
          | none => none
        | _ => none
    | _ =>
      let raw := cs.takeWhile (fun c => c ≠ '<')
      match xmlUnescapeRun (raw.length + 1) raw, xmlTokensAux fuel (cs.dropWhile (fun c => c ≠ '<')) with
      | some txt, some ts => some (.charData (String.mk txt) :: ts)
      | _, _ => none

/-- Token stream of a TTML payload. -/
def xmlRawTokens (s : String) : Option (List XmlToken) :=
  xmlTokensAux (s.data.length + 1) s.data

/-- Embedding of UpdateTTMLToAbsoluteTimestamps: tokenize, rewrite every p
    element begin/end attribute, echo everything else. -/
def updateTTML (input : String) (segmentStartSeconds : Frac) : Except String String :=
  match xmlRawTokens input with
  | none => .error "xml decode error"
  | some tokens => .ok (updateTTMLTokens tokens segmentStartSeconds)

/- Fragmented-MP4 media segments and the three processors
   (segment/video/video_segment.go, segment/audio/audio_segment.go,
   segment/subtitle/subtitle_segment.go). The processors operate on the
   decoded box tree; decode/encode round-tripping through mp4ff is the
   identity on this structure, so the embedding works directly on it.
   CENC decryption (mp4.DecryptSegment, run only when a key is supplied) is
   outside the embedding; the processor models correspond to key = nil. -/

/-- A child box of traf as inspected by the processor loops. tfhd and trun
    boxes live in their own fields below, mirroring the dedicated mp4ff
    pointers the Go code uses. -/
inductive TrafChild where
  | tfdt (baseMediaDecodeTime : Nat)
  | sdtp
  | other (boxType : String)
deriving DecidableEq, Repr

def TrafChild.isSdtp : TrafChild → Bool
  | .sdtp => true
  | _ => false

def TrafChild.isTfdt : TrafChild → Bool
  | .tfdt _ => true
  | _ => false

structure TfhdBox where
  trackID : Nat
  flags : Nat
  defaultSampleSize : Nat
  defaultSampleDuration : Nat
deriving DecidableEq, Repr

/-- One trun sample (mp4.Sample); mp4.Sample\x7b\x7d is the all-zero value. -/
structure GoSample where
  flags : Nat
  dur : Nat
  size : Nat
  compositionTimeOffset : Int
deriving DecidableEq, Repr

structure TrunBox where
  flags : Nat
  dataOffset : Int
  samples : List GoSample
deriving DecidableEq, Repr

structure SidxRef where
  referencedSize : Nat
  referenceType : Nat
  subSegmentDuration : Nat
  startsWithSAP : Nat
  sapType : Nat
  sapDeltaTime : Nat
deriving DecidableEq, Repr

structure SidxBox where
  version : Nat
  referenceID : Nat
  timescale : Nat
  earliestPresentationTime : Nat
  firstOffset : Nat
  refs : List SidxRef
deriving DecidableEq, Repr

/-- A fragment-level child box, as scanned for sidx by the subtitle
    processor. -/
inductive FragChild where
  | sidx (box : SidxBox)
  | other (boxType : String)
deriving DecidableEq, Repr

def FragChild.isSidx : FragChild → Bool
  | .sidx _ => true
  | _ => false

/-- One moof+mdat fragment. The truns list mirrors Traf.Truns; Traf.Trun is
    its head. The mdat payload is kept as a string (only the subtitle
    processor reads it, as TTML text). -/
structure Fragment where
  tfhd : TfhdBox
  truns : List TrunBox
  trafChildren : List TrafChild
  fragChildren : List FragChild
  mdat : String
deriving DecidableEq, Repr

/-- A fragmented file: its segments, each a list of fragments (styp and the
    like do not matter to any processor). -/
structure Mp4FragFile where
  segments : List (List Fragment)
deriving DecidableEq, Repr

/-- Per-element effectful map over Option, written out for easy unfolding:
    the Go loops stop at the first failing fragment. -/
def mapMOption {α β : Type} (f : α → Option β) : List α → Option (List β)
  | [] => some []
  | a :: l =>
    match f a, mapMOption f l with
    | some b, some bs => some (b :: bs)
    | _, _ => none

/-- Per-element effectful map over Except. -/
def mapMExcept {ε α β : Type} (f : α → Except ε β) : List α → Except ε (List β)
  | [] => .ok []
  | a :: l =>
    match f a, mapMExcept f l with
    | .ok b, .ok bs => .ok (b :: bs)
    | .error e, _ => .error e
    | _, .error e => .error e

/- The sdtp-removal loop of ProcessVideoSegment ranges over the slice header
   captured at loop entry while reassigning the Children field through
   append(children[:i], children[i+1:]...), which shifts the backing array in
   place. The simulation below tracks the backing array (constant length)
   and the current field length; reading an index beyond the current length
   observes stale backing entries exactly as the Go loop does, and the
   removal append panics when i+1 exceeds the current length. -/

/-- One pass of the range loop: k counts the remaining iterations of the
    original length n, so the current index is n-k. Returns the final
    backing array, field length and hasTfdt flag, or none for the panic. -/
def sdtpScanAux (backing : List TrafChild) (fieldLen : Nat) (hasTfdt : Bool) :
    Nat → Option (List TrafChild × Nat × Bool)
  | 0 => some (backing, fieldLen, hasTfdt)
  | k + 1 =>
    let i := backing.length - (k + 1)
    let child := backing.getD i (.other "")
    let hasTfdt2 := hasTfdt || child.isTfdt
    if child.isSdtp then
      if fieldLen < i + 1 then none
      else
        let backing2 := backing.take i ++ ((backing.drop (i + 1)).take (fieldLen - 1 - i))
          ++ backing.drop (fieldLen - 1)
        sdtpScanAux backing2 (fieldLen - 1) hasTfdt2 k
    else sdtpScanAux backing fieldLen hasTfdt2 k

/-- The observable result of the loop: the final Children value and whether
    a tfdt child was seen. -/
def sdtpScan (children : List TrafChild) : Option (List TrafChild × Bool) :=
  (sdtpScanAux children children.length false children.length).map
    (fun r => (r.1.take r.2.1, r.2.2))

/-- Embedding of the per-fragment body of ProcessVideoSegment: set the track
    id to 1, zero the first trun data offset (a nil trun would make the Go
    code panic on its dereference: none), run the sdtp-removal/tfdt-scan
    loop, and append a tfdt with the chunk id when none was seen. -/
def processVideoFragment (chunkId : Nat) (f : Fragment) : Option Fragment :=
  match f.truns with
  | [] => none
  | t :: ts =>
    match sdtpScan f.trafChildren with
    | none => none
    | some (cs, hasTfdt) =>
      some { f with
        tfhd := { f.tfhd with trackID := 1 },
        truns := { t with dataOffset := 0 } :: ts,
        trafChildren := if hasTfdt then cs else cs ++ [.tfdt chunkId] }

/-- Embedding of ProcessVideoSegment over the whole fragmented file
    (decryption disabled: key = nil). -/
def processVideoSegment (chunkId : Nat) (file : Mp4FragFile) : Option Mp4FragFile :=
  (mapMOption (mapMOption (processVideoFragment chunkId)) file.segments).map Mp4FragFile.mk

/-- Embedding of the per-fragment body of ProcessAudioSegment: same as video
    but the child loop only looks for tfdt (and stops at the first one). -/
def processAudioFragment (chunkId : Nat) (f : Fragment) : Option Fragment :=
  match f.truns with
  | [] => none
  | t :: ts =>
    let hasTfdt := f.trafChildren.any TrafChild.isTfdt
    some { f with
      tfhd := { f.tfhd with trackID := 1 },
      truns := { t with dataOffset := 0 } :: ts,
      trafChildren := if hasTfdt then f.trafChildren else f.trafChildren ++ [.tfdt chunkId] }

/-- Embedding of ProcessAudioSegment (decryption disabled: key = nil). -/
def processAudioSegment (chunkId : Nat) (file : Mp4FragFile) : Option Mp4FragFile :=
  (mapMOption (mapMOption (processAudioFragment chunkId)) file.segments).map Mp4FragFile.mk

/-- The sidx box the subtitle processor prepends, with its fixed observed
    earliestPresentationTime. -/
def subtitleSidx (timeScale segmentDuration : Nat) : SidxBox :=
  { version := 1
    referenceID := 1
    timescale := timeScale
    earliestPresentationTime := 17443164950004000
    firstOffset := 0
    refs := [{ referencedSize := 0, referenceType := 0,
               subSegmentDuration := segmentDuration,
               startsWithSAP := 1, sapType := 1, sapDeltaTime := 0 }] }

/-- tfhd flag bits set by the subtitle processor. -/
def defaultSampleSizePresent : Nat := 0x000010
def defaultSampleDurationPresent : Nat := 0x000008

/-- trun flag bits cleared by the subtitle processor (mp4ff constants). -/
def trunClearedFlagsMask : Nat := 0x000004 + 0x000100 + 0x000200 + 0x000400 + 0x000800

/-- Embedding of the per-fragment body of ProcessSubtitleSegment: track id 1,
    tfdt appended when missing, a sidx prepended when absent and the
    timescale and duration are positive, the TTML mdat rebased by
    chunkId/timeScale seconds, tfhd default sample size and duration set
    (sample size is the byte length of the new payload), the size/duration
    flag bits set, per-sample trun flags cleared and the samples replaced by
    one empty sample. Go computes chunkId/timeScale in float64, where a zero
    timescale gives Inf or NaN; the rational model is faithful for
    timeScale > 0 (a zero timescale also skips the sidx branch in both). -/
def processSubtitleFragment (chunkId : Nat) (timeScale segmentDuration : Nat)
    (f : Fragment) : Except String Fragment :=
  let hasTfdt := f.trafChildren.any TrafChild.isTfdt
  let trafChildren2 := if hasTfdt then f.trafChildren else f.trafChildren ++ [.tfdt chunkId]
  let hasSidx := f.fragChildren.any FragChild.isSidx
  let fragChildren2 :=
    if !hasSidx && decide (0 < timeScale) && decide (0 < segmentDuration) then
      .sidx (subtitleSidx timeScale segmentDuration) :: f.fragChildren
    else f.fragChildren
  let segmentStartSeconds : Frac := ⟨(chunkId : Int), (timeScale : Int)⟩
  match updateTTML f.mdat segmentStartSeconds with
  | .error e => .error ("failed to enhance TTML: " ++ e)
  | .ok newMdat =>
    .ok { f with
      tfhd := { f.tfhd with
        trackID := 1,
        defaultSampleSize := newMdat.utf8ByteSize,
        defaultSampleDuration := segmentDuration,
        flags := f.tfhd.flags ||| defaultSampleSizePresent ||| defaultSampleDurationPresent }
      truns := f.truns.map (fun t =>
        { t with
          flags := t.flags &&& (0xFFFFFFFF ^^^ trunClearedFlagsMask),
          samples := [{ flags := 0, dur := 0, size := 0, compositionTimeOffset := 0 }] })
      trafChildren := trafChildren2
      fragChildren := fragChildren2
      mdat := newMdat }

/-- Embedding of ProcessSubtitleSegment over the whole fragmented file. -/
def processSubtitleSegment (chunkId : Nat) (timeScale segmentDuration : Nat)
    (file : Mp4FragFile) : Except String Mp4FragFile :=
  (mapMExcept (mapMExcept (processSubtitleFragment chunkId timeScale segmentDuration))
    file.segments).map Mp4FragFile.mk

/-- The tfdt decode times present among a list of traf children. -/
def tfdtTimes (cs : List TrafChild) : List Nat :=
  cs.filterMap (fun c => match c with | .tfdt t => some t | _ => none)

/- Initialization-segment synthesis (segment/base.go and the four Generate
   methods). The mp4ff box tree is modelled with the fields the generators
   touch; sample-entry construction by the mp4ff descriptor setters is
   recorded as data (their internal box layout is irrelevant to the claims,
   and their error branches abort generation, so a total model only enlarges
   the set of generated inits that the theorems quantify over). -/

/-- The sample entry attached by the mp4ff descriptor setters. -/
inductive StsdEntry where
  | avc1 (spsNALUs ppsNALUs : List (List Nat))
  | mp4aAac (objType samplingFrequency : Nat)
  | mp4aEc3 (dec3Payload : List Nat)
  | stpp (namespaces schemaLocations auxiliaryMimeTypes : String)
deriving DecidableEq, Repr

structure TrakBox where
  trackID : Nat
  mediaType : String
  timeScale : Nat
  lang : String
  stsd : Option StsdEntry
  cencProtected : Bool
  defaultKid : Option (List Nat)
deriving DecidableEq, Repr

structure MoovBox where
  traks : List TrakBox
  trexTrackIDs : List Nat
  psshDatas : List (List Nat)
deriving DecidableEq, Repr

structure FtypBox where
  majorBrand : String
  minorVersion : Nat
  compatibleBrands : List String
deriving DecidableEq, Repr

structure InitSegment where
  ftyp : FtypBox
  moov : MoovBox
deriving DecidableEq, Repr

/-- Modelled from mp4ff v0.48.0 (external dependency, pinned in go.mod):
    InitSegment.AddEmptyTrack assigns the new trak the id
    len(moov.Traks) + 1, with the given handler media type, timescale and
    language, and appends a matching trex entry to mvex. -/
def addEmptyTrack (init : InitSegment) (timeScale : Nat) (mediaType lang : String) :
    InitSegment :=
  let trackID := init.moov.traks.length + 1
  { init with moov := { init.moov with
      traks := init.moov.traks ++
        [{ trackID := trackID, mediaType := mediaType, timeScale := timeScale,
           lang := lang, stsd := none, cencProtected := false, defaultKid := none }],
      trexTrackIDs := init.moov.trexTrackIDs ++ [trackID] } }

/-- Embedding of NewBaseInitSegment: a dash ftyp with the given brands, an
    empty moov with mvhd and mvex, and one empty track. -/
def newBaseInitSegment (trackType lang : String) (timeScale : Nat)
    (ftypBrands : List String) : InitSegment :=
  addEmptyTrack
    { ftyp := { majorBrand := "dash", minorVersion := 0, compatibleBrands := ftypBrands }
      moov := { traks := [], trexTrackIDs := [], psshDatas := [] } }
    timeScale trackType lang

/-- The mp4ff descriptor setters operate on moov.Trak, which is the FIRST
    trak added to the moov (AddChild keeps the first trak in the Trak
    field). -/
def setFirstTrakStsd (init : InitSegment) (e : StsdEntry) : InitSegment :=
  { init with moov := { init.moov with traks :=
      match init.moov.traks with
      | [] => []
      | t :: ts => { t with stsd := some e } :: ts } }

/-- Embedding of AddPrEncryption: mp4.InitProtect attaches cenc protection
    metadata (sinf/frma/schm/tenc with the default KID) to the first trak
    sample entry and records the PlayReady pssh box. The returned
    DecryptInfo is not modelled (no claim mentions it). -/
def addPrEncryption (init : InitSegment) (keyId pssh : List Nat) : InitSegment :=
  { init with moov := { init.moov with
      psshDatas := init.moov.psshDatas ++ [pssh],
      traks :=
        match init.moov.traks with
        | [] => []
        | t :: ts => { t with cencProtected := true, defaultKid := some keyId } :: ts } }

/-- The BaseInitSegment input record (segment/base.go). -/
structure BaseInitSegment where
  timeScale : Nat
  lang : String
  codecPrivateData : String
  keyId : Option (List Nat)
  key : Option (List Nat)
  pssh : Option (List Nat)
deriving DecidableEq, Repr

/-- First index at which one list occurs inside another. -/
def indexOfSeq (delim : List Nat) : List Nat → Option Nat
  | [] => if delim = [] then some 0 else none
  | b :: bs =>
    if delim.isPrefixOf (b :: bs) then some 0
    else (indexOfSeq delim bs).map (· + 1)

/-- Embedding of Go bytes.SplitN(s, sep, n) for n pieces, non-empty sep. -/
def splitNSeq (delim : List Nat) (n : Nat) (bs : List Nat) : List (List Nat) :=
  match n with
  | 0 => []
  | 1 => [bs]
  | n + 1 =>
    match indexOfSeq delim bs with
    | none => [bs]
    | some i => bs.take i :: splitNSeq delim n (bs.drop (i + delim.length))

/-- Embedding of CodecPrivateDataToSPSPPS: hex-decode, split on the Annex-B
    start code into at most three parts, require three; parts two and three
    are the SPS and PPS NAL units. -/
def codecPrivateDataToSPSPPS (codecPrivateDataHex : String) :
    Option (List (List Nat) × List (List Nat)) :=
  match hexDecode codecPrivateDataHex.data with
  | none => none
  | some codecPrivateData =>
    let split := splitNSeq [0, 0, 0, 1] 3 codecPrivateData
    if split.length < 3 then none
    else some ([split.getD 1 []], [split.getD 2 []])

/-- Embedding of AVCInitSegment.Generate (decrypt-info output omitted). -/
def avcInitGenerate (s : BaseInitSegment) : Option InitSegment :=
  match codecPrivateDataToSPSPPS s.codecPrivateData with
  | none => none
  | some (spsNALUs, ppsNALUs) =>
    let init := newBaseInitSegment "video" s.lang s.timeScale ["iso6", "piff", "avc1"]
    let init := setFirstTrakStsd init (.avc1 spsNALUs ppsNALUs)
    match s.keyId, s.pssh with
    | some kid, some pssh => some (addPrEncryption init kid pssh)
    | _, _ => some init

/-- Embedding of CodecPrivateDataToAudioSpecificConfig; the external
    aac.DecodeAudioSpecificConfig parse is the parameter `aacDecode`,
    giving (objectType, samplingFrequency). -/
def codecPrivateDataToASC (aacDecode : List Nat → Option (Nat × Nat))
    (codecPrivateDataHex : String) : Option (Nat × Nat) :=
  match hexDecode codecPrivateDataHex.data with
  | none => none
  | some bytes =>
    if bytes.length < 2 then none
    else aacDecode bytes

/-- Embedding of AACInitSegment.Generate. -/
def aacInitGenerate (aacDecode : List Nat → Option (Nat × Nat))
    (s : BaseInitSegment) : Option InitSegment :=
  match codecPrivateDataToASC aacDecode s.codecPrivateData with
  | none => none
  | some (objType, freq) =>
    let init := newBaseInitSegment "audio" s.lang s.timeScale ["iso6", "piff", "mp4a"]
    let init := setFirstTrakStsd init (.mp4aAac objType freq)
    match s.keyId, s.pssh with
    | some kid, some pssh => some (addPrEncryption init kid pssh)
    | _, _ => some init

/-- Embedding of De3InitSegment.Generate. The dec3 box is represented by
    the payload bytes it was decoded from; `dec3Decode` is the external
    mp4.DecodeDec3 (none = error or nil box). -/
def de3InitGenerate (dec3Decode : List Nat → Option (List Nat))
    (s : BaseInitSegment) : GoCall InitSegment :=
  match codecPrivateDataToDec3Box dec3Decode s.codecPrivateData with
  | .crashed => .crashed
  | .err e => .err e
  | .ok dec3Payload =>
    let init := newBaseInitSegment "audio" s.lang s.timeScale ["iso6", "piff", "mp4a"]
    let init := setFirstTrakStsd init (.mp4aEc3 dec3Payload)
    match s.keyId, s.pssh with
    | some kid, some pssh => .ok (addPrEncryption init kid pssh)
    | _, _ => .ok init

/-- The namespaces string passed to SetStppDescriptor. -/
def stppNamespaces : String :=
  "http://www.w3.org/ns/ttml http://www.smpte-ra.org/schemas/2052-1/2010/smpte-tt http://www.w3.org/ns/ttml#metadata  http://www.w3.org/ns/ttml#parameter http://www.w3.org/ns/ttml#styling http://www.w3.org/2001/XMLSchema-instance http://www.smpte-ra.org/schemas/2052-1/2010/smpte-tt http://www.smpte-ra.org/schemas/2052-1/2010/smpte-tt.xsd"

/-- Embedding of STPPInitSegment.Generate: a base init (whose track type
    argument is the string audio) plus a SECOND AddEmptyTrack with media
    type subtitle, then the stpp descriptor set on moov.Trak, the first
    trak. -/
def stppInitGenerate (s : BaseInitSegment) : InitSegment :=
  let init := newBaseInitSegment "audio" s.lang s.timeScale ["iso6", "piff"]
  let init := addEmptyTrack init s.timeScale "subtitle" s.lang
  setFirstTrakStsd init (.stpp stppNamespaces "" "")

/-- Concrete base input used by witnesses: the AVC codec private data is the
    repository test vector. -/
def avcWitnessBase : BaseInitSegment :=
  { timeScale := 10000000
    lang := "und"
    codecPrivateData := "00000001674d40209e5281806f60284040405000000300100000064e00000d1f400068fa3f13e0a00000000168ef7520"
    keyId := none, key := none, pssh := none }

/-- Count of sdtp children, used to state the video idempotence guard. -/
def sdtpCount (cs : List TrafChild) : Nat :=
  cs.countP (fun c => c.isSdtp)

/-- Pairwise tfdt preservation between an input and an output fragment:
    every tfdt child present before processing is still present, with the
    same base_media_decode_time, after it. -/
def preservesTfdt (fin fout : Fragment) : Prop :=
  ∀ t, TrafChild.tfdt t ∈ fin.trafChildren → TrafChild.tfdt t ∈ fout.trafChildren

/-- A concrete subtitle fragment whose mdat is a TTML paragraph, used to
    exhibit the subtitle processor shifting timestamps on every run. -/
def c2Frag : Fragment :=
  { tfhd := { trackID := 7, flags := 0, defaultSampleSize := 0, defaultSampleDuration := 0 }
    truns := [{ flags := 0x301, dataOffset := 0, samples := [] }]
    trafChildren := []
    fragChildren := []
    mdat := "<p begin=\"00:00:01.000\" end=\"00:00:03.500\">hi</p>" }

def c2File : Mp4FragFile := ⟨[[c2Frag]]⟩

/-- The mdat payloads of a processed file, for readable statements. -/
def fileMdats (f : Mp4FragFile) : List (List String) :=
  f.segments.map (fun s => s.map Fragment.mdat)

/-- Concrete STPP generator input for the C1 counterexample. -/
def c1StppInput : BaseInitSegment :=
  { timeScale := 10000000, lang := "und", codecPrivateData := "",
    keyId := none, key := none, pssh := none }

/-- Small concrete AVC generator input for witnesses. -/
def c1AvcBase : BaseInitSegment :=
  { timeScale := 10000000, lang := "und", codecPrivateData := "00000001aa0000000168bb",
    keyId := none, key := none, pssh := none }

/-- The init segment the AVC generator produces on `c1AvcBase`. -/
def c1AvcInit : InitSegment :=
  { ftyp := { majorBrand := "dash", minorVersion := 0,
              compatibleBrands := ["iso6", "piff", "avc1"] }
    moov := { traks := [{ trackID := 1, mediaType := "video", timeScale := 10000000,
                          lang := "und", stsd := some (.avc1 [[170]] [[104, 187]]),
                          cencProtected := false, defaultKid := none }],
              trexTrackIDs := [1], psshDatas := [] } }

/-- Concrete video fragment (track id 7, one sdtp, one tfdt) for witnesses. -/
def c1VideoFrag : Fragment :=
  { tfhd := { trackID := 7, flags := 0, defaultSampleSize := 0, defaultSampleDuration := 0 }
    truns := [{ flags := 0x301, dataOffset := 100, samples := [] }]
    trafChildren := [.sdtp, .tfdt 5]
    fragChildren := []
    mdat := "" }

def c1VideoFile : Mp4FragFile := ⟨[[c1VideoFrag]]⟩

/-- The fragment the video processor produces on `c1VideoFrag`. -/
def c1VideoOutFrag : Fragment :=
  { tfhd := { trackID := 1, flags := 0, defaultSampleSize := 0, defaultSampleDuration := 0 }
    truns := [{ flags := 0x301, dataOffset := 0, samples := [] }]
    trafChildren := [.tfdt 5]
    fragChildren := []
    mdat := "" }

def c1VideoOut : Mp4FragFile := ⟨[[c1VideoOutFrag]]⟩

/-- The fragment the audio processor produces on `c1VideoFrag` (sdtp kept). -/
def c2AudioOutFrag : Fragment :=
  { tfhd := { trackID := 1, flags := 0, defaultSampleSize := 0, defaultSampleDuration := 0 }
    truns := [{ flags := 0x301, dataOffset := 0, samples := [] }]
    trafChildren := [.sdtp, .tfdt 5]
    fragChildren := []
    mdat := "" }

def c2AudioOut : Mp4FragFile := ⟨[[c2AudioOutFrag]]⟩

/-- Concrete p-element begin attribute for the C6 witness. -/
def c6Attr : XmlAttr := { name := { space := "", localName := "begin" }, value := "00:00:01.000" }

/- MSS manifest to DASH manifest conversion: SmoothToDashManifest in
   src/unnamed/part_010, over the models of src/unnamed/part_012 and
   src/unnamed/part_013. -/

/-- ASCII lowercase mapping. Models strings.ToLower and the case folding of
    strings.EqualFold for the ASCII system-ID strings handled here; non-ASCII
    case mappings do not arise for UUID strings. -/
def goToLowerChar (c : Char) : Char :=
  if 'A' ≤ c ∧ c ≤ 'Z' then Char.ofNat (c.toNat + 32) else c

/-- strings.ToLower restricted to ASCII. -/
def goToLower (s : String) : String :=
  String.mk (s.data.map goToLowerChar)

/-- models.SmoothProtectionHeader: SystemID attribute and chardata custom data. -/
structure SmoothProtectionHeader where
  systemID : String
  customData : String
deriving DecidableEq, Repr

/-- models.ChunkInfos: one c element with duration d and start time t. -/
structure ChunkInfos where
  duration : Nat
  startTime : Nat
deriving DecidableEq, Repr

/-- models.QualityLevel (the attributes read by the converter). -/
structure QualityLevel where
  index : Int
  bitrate : Nat
  codecPrivateData : String
  fourCC : String
  maxWidth : Nat
  maxHeight : Nat
  channels : Int
  samplingRate : Int
deriving DecidableEq, Repr

/-- models.StreamIndex (the attributes read by the converter). -/
structure StreamIndex where
  type : String
  name : String
  language : String
  url : String
  qualityLevels : List QualityLevel
  chunkInfos : List ChunkInfos
deriving DecidableEq, Repr

/-- models.SmoothStream (the attributes read by the converter). -/
structure SmoothStream where
  duration : Nat
  timeScale : Nat
  isLive : Bool
  dvrWindowLength : Int
  protection : List SmoothProtectionHeader
  streamIndexes : List StreamIndex
deriving DecidableEq, Repr

/-- GetProtectionHeaderForSystemId: first protection header whose SystemID
    matches the given system id up to strings.EqualFold. -/
def getProtectionHeaderForSystemId (ss : SmoothStream) (systemId : String) :
    Option SmoothProtectionHeader :=
  ss.protection.find? (fun ph => goToLower ph.systemID == goToLower systemId)

/-- StreamIndex.GetMimeType. -/
def StreamIndex.getMimeType (si : StreamIndex) : String :=
  if si.type = "video" then "video/mp4"
  else if si.type = "audio" then "audio/mp4"
  else if si.type = "text" then "application/mp4"
  else "application/octet-stream"

/-- mp4.UUIDPlayReady from mp4ff v0.48.0. -/
def uuidPlayReady : String := "9a04f079-9840-4286-ab92-e65be0885f95"

/-- Big-endian 32-bit encoding of a natural number. -/
def u32be (n : Nat) : List Nat :=
  [n / 16777216 % 256, n / 65536 % 256, n / 256 % 256, n % 256]

/-- The sixteen system-ID bytes of the PlayReady UUID. -/
def playReadySystemIdBytes : List Nat :=
  [0x9a, 0x04, 0xf0, 0x79, 0x98, 0x40, 0x42, 0x86,
   0xab, 0x92, 0xe6, 0x5b, 0xe0, 0x88, 0x5f, 0x95]

/-- Byte layout produced by mp4ff PsshBox.Encode for version 0, flags 0, and
    the PlayReady system ID: box size, the type pssh, version and flags,
    16 system-ID bytes, data length, data. -/
def psshBoxBytes (data : List Nat) : List Nat :=
  u32be (32 + data.length) ++ [0x70, 0x73, 0x73, 0x68] ++ [0, 0, 0, 0] ++
    playReadySystemIdBytes ++ u32be data.length ++ data

/-- GeneratePsshData in src/unnamed/part_009: base64-decode the protection
    header custom data, wrap it in a PlayReady pssh box, and return the box
    base64-encoded; an absent header yields the empty string. -/
def generatePsshData (playreadyProtectionData : Option SmoothProtectionHeader) :
    Except String String :=
  match playreadyProtectionData with
  | none => .ok ""
  | some ph =>
    match base64Decode ph.customData.data with
    | none => .error "illegal base64 data"
    | some customDataDecoded => .ok (base64Encode (psshBoxBytes customDataDecoded))

/-- models.ConditionalUint: either a boolean or an unsigned value. -/
structure ConditionalUint where
  b : Option Bool
  u : Option Nat
deriving DecidableEq, Repr

/-- models.Pro: an mspr:pro element. -/
structure Pro where
  xmlns : String
  data : String
deriving DecidableEq, Repr

/-- models.Pssh: a cenc:pssh element. -/
structure Pssh where
  xmlns : String
  data : String
deriving DecidableEq, Repr

/-- models.Descriptor: a ContentProtection element. -/
structure Descriptor where
  value : String
  schemeIDURI : String
  pro : Option Pro
  pssh : Option Pssh
deriving DecidableEq, Repr

/-- models.SegmentTimelineS. -/
structure SegmentTimelineS where
  t : Nat
  d : Nat
deriving DecidableEq, Repr

/-- models.SegmentTemplate (the fields written by the converter). -/
structure SegmentTemplate where
  timescale : Nat
  media : String
  initialization : String
  segmentTimeline : List SegmentTimelineS
deriving DecidableEq, Repr

/-- models.AudioChannelConfiguration. -/
structure AudioChannelConfiguration where
  schemeIdUri : String
  value : String
deriving DecidableEq, Repr

/-- models.Representation (the fields written by the converter; the others
    keep their zero values throughout). -/
structure Representation where
  id : String
  width : Nat
  height : Nat
  bandwidth : Nat
  audioSamplingRate : String
  codecs : String
  scanType : String
deriving DecidableEq, Repr

/-- models.AdaptationSet (the fields written by the converter). -/
structure AdaptationSet where
  mimeType : String
  startWithSAP : ConditionalUint
  id : String
  segmentAlignment : ConditionalUint
  lang : String
  contentType : String
  audioChannelConfiguration : Option AudioChannelConfiguration
  contentProtections : List Descriptor
  segmentTemplate : Option SegmentTemplate
  representations : List Representation
deriving DecidableEq, Repr

/-- models.Period (the fields written by the converter); start in seconds. -/
structure Period where
  start : Int
  id : String
  adaptationSets : List AdaptationSet
deriving DecidableEq, Repr

/-- models.ProgramInformation. -/
structure ProgramInformation where
  title : String
  copyright : String
deriving DecidableEq, Repr

/-- models.UTCTiming. -/
structure UTCTiming where
  schemeIdUri : String
  value : String
deriving DecidableEq, Repr

/-- models.MPD (the fields written by the converter). Durations are in
    seconds; an absent optional duration models a nil xsd.Duration pointer,
    and an empty xmlns string models an omitted attribute. -/
structure MPD where
  xmlns : String
  type : String
  profiles : String
  xmlnsCommonEncryption : String
  xmlnsPlayReady : String
  minBufferTime : Int
  availabilityStartTime : String
  publishTime : String
  period : List Period
  utcTiming : UTCTiming
  programInformation : ProgramInformation
  mediaPresentationDuration : Option Int
  minimumUpdatePeriod : Option Int
  timeShiftBufferDepth : Option Int
deriving DecidableEq, Repr

/-- convertSmoothToMpdTag character scan: the strings.Replacer replaces
    non-overlapping occurrences left to right, mapping the literal
    \x7bbitrate\x7d to a Bandwidth template tag and the literal
    \x7bstart time\x7d to a Time template tag. -/
def convertSmoothToMpdTagAux : List Char → List Char
  | '\x7b' :: 'b' :: 'i' :: 't' :: 'r' :: 'a' :: 't' :: 'e' :: '\x7d' :: rest =>
    ("$Bandwidth$").data ++ convertSmoothToMpdTagAux rest
  | '\x7b' :: 's' :: 't' :: 'a' :: 'r' :: 't' :: ' ' :: 't' :: 'i' :: 'm' :: 'e' :: '\x7d' :: rest =>
    ("$Time$").data ++ convertSmoothToMpdTagAux rest
  | c :: rest => c :: convertSmoothToMpdTagAux rest
  | [] => []

/-- convertSmoothToMpdTag in src/unnamed/part_010. -/
def convertSmoothToMpdTag (path : String) : String :=
  String.mk (convertSmoothToMpdTagAux path.data)

/-- The chunk loop of SmoothToDashManifest: one S entry per chunk, carrying
    the chunk duration, and the start time on the first chunk only. -/
def buildSegmentTimeline : Nat → List ChunkInfos → List SegmentTimelineS
  | _, [] => []
  | chunk, info :: rest =>
    { t := if chunk = 0 then info.startTime else 0, d := info.duration } ::
      buildSegmentTimeline (chunk + 1) rest

/-- The quality-level loop body of SmoothToDashManifest. The avcCodec
    parameter stands for the external video codec-string derivation
    (CodecPrivateDataToSPSPPS, avc.ParseSPSNALUnit, avc.CodecString) applied
    to the CodecPrivateData hex string. -/
def buildRepresentation (avcCodec : String → Except String String)
    (streamType streamIndexName : String) (ql : QualityLevel) :
    Except String Representation :=
  let base : Representation :=
    { id := buildRepId streamIndexName ql.index
      width := 0
      height := 0
      bandwidth := ql.bitrate
      audioSamplingRate := ""
      codecs := ""
      scanType := "" }
  if streamType = "video" then
    if ql.codecPrivateData = "" then
      .error "CodecPrivateData is empty"
    else
      match avcCodec ql.codecPrivateData with
      | .error e => .error e
      | .ok codecs =>
        .ok { base with
          width := ql.maxWidth
          height := ql.maxHeight
          codecs := codecs
          scanType := "progressive" }
  else if streamType = "audio" then
    .ok { base with
      audioSamplingRate := goItoaInt ql.samplingRate
      codecs := if ql.fourCC = "EC-3" then "ec-3" else "mp4a.40.2" }
  else if streamType = "text" then
    .ok { base with codecs := "stpp" }
  else .ok base

/-- The audioChannels accumulator of the quality-level loop: starts at the
    stereo default 2 and is overwritten by every level with positive
    Channels. -/
def audioChannelsFold (qls : List QualityLevel) : Int :=
  qls.foldl (fun acc ql => if ql.channels > 0 then ql.channels else acc) 2

/-- The ContentProtection descriptor attached to video and audio adaptation
    sets: PlayReady scheme (system ID lowercased), value MSPR 2.0, an
    mspr:pro child carrying the raw custom data and a cenc:pssh child
    carrying the base64-encoded synthesized pssh box. -/
def msprDescriptor (ph : SmoothProtectionHeader) (psshData : String) : Descriptor :=
  { value := "MSPR 2.0"
    schemeIDURI := "urn:uuid:" ++ goToLower ph.systemID
    pro := some { xmlns := "urn:microsoft:playready", data := ph.customData }
    pssh := some { xmlns := "urn:mpeg:cenc:2013", data := psshData } }

/-- The stream-index loop body of SmoothToDashManifest, building one
    adaptation set (before the subtitle-toggle skip). -/
def buildAdaptationSet (avcCodec : String → Except String String)
    (hasKeys : Bool) (prot : Option SmoothProtectionHeader) (psshData : String)
    (timeScale : Nat) (index : Nat) (si : StreamIndex) :
    Except String AdaptationSet :=
  let streamIndexName := if si.name ≠ "" then si.name else si.type
  let segmentTemplate : SegmentTemplate :=
    { timescale := timeScale
      media := "$RepresentationID$/$Time$/" ++ convertSmoothToMpdTag si.url
      initialization := "$RepresentationID$/init.mp4"
      segmentTimeline := buildSegmentTimeline 0 si.chunkInfos }
  match mapMExcept (buildRepresentation avcCodec si.type streamIndexName)
      si.qualityLevels with
  | .error e => .error e
  | .ok representations =>
    .ok { mimeType := si.getMimeType
          startWithSAP := { b := none, u := some 1 }
          id := goItoaInt ((index : Nat) : Int)
          segmentAlignment := { b := some true, u := none }
          lang := si.language
          contentType := si.type
          audioChannelConfiguration :=
            if si.type = "audio" then
              some { schemeIdUri := "urn:mpeg:dash:23003:3:audio_channel_configuration:2011"
                     value := goItoaInt (audioChannelsFold si.qualityLevels) }
            else none
          contentProtections :=
            match prot with
            | some ph =>
              if hasKeys = false ∧ (si.type = "video" ∨ si.type = "audio") then
                [msprDescriptor ph psshData]
              else []
            | none => []
          segmentTemplate := some segmentTemplate
          representations := representations }

/-- The stream-index loop of SmoothToDashManifest: adaptation sets are built
    in order, the index counts all stream indexes, and a text set is dropped
    after being built when allowSubs is false (the continue statement). -/
def buildAdaptationSets (avcCodec : String → Except String String)
    (hasKeys allowSubs : Bool) (prot : Option SmoothProtectionHeader)
    (psshData : String) (timeScale : Nat) :
    Nat → List StreamIndex → Except String (List AdaptationSet)
  | _, [] => .ok []
  | index, si :: rest =>
    match buildAdaptationSet avcCodec hasKeys prot psshData timeScale index si with
    | .error e => .error e
    | .ok a =>
      match buildAdaptationSets avcCodec hasKeys allowSubs prot psshData timeScale
          (index + 1) rest with
      | .error e => .error e
      | .ok sets =>
        if si.type = "text" ∧ allowSubs = false then .ok sets else .ok (a :: sets)

/-- SmoothToDashManifest in src/unnamed/part_010. The wall-clock publish and
    UTC timing timestamp (time.Now) is taken as the now parameter, the
    channel name as channelName, and the external avc SPS pipeline as
    avcCodec (see buildRepresentation). -/
def smoothToDashManifest (avcCodec : String → Except String String)
    (now channelName : String) (ismManifest : SmoothStream)
    (hasKeys allowSubs : Bool) : Except String MPD :=
  let playreadyProtectionData := getProtectionHeaderForSystemId ismManifest uuidPlayReady
  match generatePsshData playreadyProtectionData with
  | .error e => .error e
  | .ok psshData =>
    match buildAdaptationSets avcCodec hasKeys allowSubs playreadyProtectionData
        psshData ismManifest.timeScale 0 ismManifest.streamIndexes with
    | .error e => .error e
    | .ok adaptationSets =>
      .ok { xmlns := "urn:mpeg:dash:schema:mpd:2011"
            type := if ismManifest.isLive then "dynamic" else "static"
            profiles := "urn:mpeg:dash:profile:isoff-live:2011"
            xmlnsCommonEncryption :=
              if hasKeys = false ∧ playreadyProtectionData.isSome then
                "urn:mpeg:cenc:2013"
              else ""
            xmlnsPlayReady :=
              if hasKeys = false ∧ playreadyProtectionData.isSome then
                "urn:microsoft:playready"
              else ""
            minBufferTime := 2
            availabilityStartTime := "1970-01-01T00:00:00Z"
            publishTime := now
            period := [{ start := 0, id := "0", adaptationSets := adaptationSets }]
            utcTiming := { schemeIdUri := "urn:mpeg:dash:utc:direct:2014", value := now }
            programInformation := { title := channelName, copyright := "Served by manifesto" }
            mediaPresentationDuration :=
              if ismManifest.isLive = false ∧ ismManifest.duration > 0 then
                some ((ismManifest.duration / 10000000 : Nat) : Int)
              else none
            minimumUpdatePeriod := if ismManifest.isLive then some 2 else none
            timeShiftBufferDepth :=
              if ismManifest.isLive ∧ ismManifest.dvrWindowLength > 0 then
                some (Int.tdiv ismManifest.dvrWindowLength 10000000)
              else none }

/-- Dropping every text adaptation set from an MPD, for relating the two
    values of the subtitle toggle. -/
def mpdDropTextAdaptationSets (mpd : MPD) : MPD :=
  { mpd with period := mpd.period.map (fun per =>
      { per with adaptationSets :=
          per.adaptationSets.filter (fun a => a.contentType != "text") }) }

/-- Concrete external codec-string derivation for the C7 witness. -/
def c7Avc : String → Except String String := fun _ => .ok "avc1.4d4020"

/-- Concrete protection header for the C7 witness; AAAA decodes to three
    zero bytes. -/
def c7Prot : SmoothProtectionHeader :=
  { systemID := "9A04F079-9840-4286-AB92-E65BE0885F95", customData := "AAAA" }

/-- Concrete audio quality level for the C7 witness. -/
def c7Ql : QualityLevel :=
  { index := 0, bitrate := 128000, codecPrivateData := "", fourCC := "AACL"
    maxWidth := 0, maxHeight := 0, channels := 2, samplingRate := 48000 }

/-- Concrete audio stream index for the C7 witness. -/
def c7Si : StreamIndex :=
  { type := "audio", name := "audio", language := "eng", url := "u"
    qualityLevels := [c7Ql], chunkInfos := [{ duration := 20000000, startTime := 0 }] }

/-- Concrete MSS presentation for the C7 witness. -/
def c7Ism : SmoothStream :=
  { duration := 0, timeScale := 10000000, isLive := false, dvrWindowLength := 0
    protection := [c7Prot], streamIndexes := [c7Si] }

/-- The adaptation set the converter produces for c7Si. -/
def c7AdSet : AdaptationSet :=
  { mimeType := "audio/mp4"
    startWithSAP := { b := none, u := some 1 }
    id := "0"
    segmentAlignment := { b := some true, u := none }
    lang := "eng"
    contentType := "audio"
    audioChannelConfiguration :=
      some { schemeIdUri := "urn:mpeg:dash:23003:3:audio_channel_configuration:2011"
             value := "2" }
    contentProtections :=
      [{ value := "MSPR 2.0"
         schemeIDURI := "urn:uuid:9a04f079-9840-4286-ab92-e65be0885f95"
         pro := some { xmlns := "urn:microsoft:playready", data := "AAAA" }
         pssh := some { xmlns := "urn:mpeg:cenc:2013"
                        data := "AAAAI3Bzc2gAAAAAmgTweZhAQoarkuZb4IhflQAAAAMAAAA=" } }]
    segmentTemplate :=
      some { timescale := 10000000
             media := "$RepresentationID$/$Time$/u"
             initialization := "$RepresentationID$/init.mp4"
             segmentTimeline := [{ t := 0, d := 20000000 }] }
    representations :=
      [{ id := "audio_0", width := 0, height := 0, bandwidth := 128000
         audioSamplingRate := "48000", codecs := "mp4a.40.2", scanType := "" }] }

/-- The MPD the converter produces for c7Ism with hasKeys false. -/
def c7Mpd : MPD :=
  { xmlns := "urn:mpeg:dash:schema:mpd:2011"
    type := "static"
    profiles := "urn:mpeg:dash:profile:isoff-live:2011"
    xmlnsCommonEncryption := "urn:mpeg:cenc:2013"
    xmlnsPlayReady := "urn:microsoft:playready"
    minBufferTime := 2
    availabilityStartTime := "1970-01-01T00:00:00Z"
    publishTime := "2025-01-01T00:00:00Z"
    period := [{ start := 0, id := "0", adaptationSets := [c7AdSet] }]
    utcTiming := { schemeIdUri := "urn:mpeg:dash:utc:direct:2014"
                   value := "2025-01-01T00:00:00Z" }
    programInformation := { title := "test", copyright := "Served by manifesto" }
    mediaPresentationDuration := none
    minimumUpdatePeriod := none
    timeShiftBufferDepth := none }

/-- Concrete text stream index for the C8 witness. -/
def c8TextSi : StreamIndex :=
  { type := "text", name := "sub", language := "eng", url := "u"
    qualityLevels := [{ index := 0, bitrate := 1000, codecPrivateData := "", fourCC := "TTML"
                        maxWidth := 0, maxHeight := 0, channels := 0, samplingRate := 0 }]
    chunkInfos := [] }

/-- Concrete MSS presentation with a text stream for the C8 witness. -/
def c8Ism : SmoothStream :=
  { duration := 0, timeScale := 10000000, isLive := false, dvrWindowLength := 0
    protection := [c7Prot], streamIndexes := [c7Si, c8TextSi] }

/- ------------------------------------------------------------------ -/
/- Theorems -/
/- ------------------------------------------------------------------ -/

theorem digitChar_toNat {d : Nat} (h : d < 10) : (digitChar d).toNat = 48 + d := by
  interval_cases d <;> rfl

theorem isDigitChar_digitChar {d : Nat} (h : d < 10) : isDigitChar (digitChar d) = true := by
  interval_cases d <;> rfl

theorem natDecimalCharsAux_eq :
    ∀ (fuel n : Nat), n ≤ fuel →
      natDecimalCharsAux fuel n = ((Nat.digits 10 n).map digitChar).reverse := by
  intro fuel
  induction fuel with
  | zero =>
    intro n hn
    obtain rfl : n = 0 := by omega
    simp [natDecimalCharsAux]
  | succ fuel ih =>
    intro n hn
    by_cases h0 : n = 0
    · simp [natDecimalCharsAux, h0]
    · have hrec : Nat.digits 10 n = n % 10 :: Nat.digits 10 (n / 10) :=
        Nat.digits_def' (by norm_num) (by omega)
      rw [natDecimalCharsAux, if_neg h0, hrec]
      rw [ih (n / 10) (by omega)]
      simp

theorem natDecimalChars_eq (n : Nat) :
    natDecimalChars n = if n = 0 then ['0'] else ((Nat.digits 10 n).map digitChar).reverse := by
  unfold natDecimalChars
  by_cases h0 : n = 0
  · simp [h0]
  · rw [if_neg h0, if_neg h0, natDecimalCharsAux_eq n n (le_refl n)]

theorem isDigitChar_mem_natDecimalChars {n : Nat} {c : Char}
    (h : c ∈ natDecimalChars n) : isDigitChar c = true := by
  rw [natDecimalChars_eq] at h
  by_cases h0 : n = 0
  · simp [h0] at h
    simp [h, isDigitChar]
  · simp [h0] at h
    obtain ⟨d, hd, rfl⟩ := h
    exact isDigitChar_digitChar (Nat.digits_lt_base (by norm_num) hd)

theorem ne_of_isDigitChar {c : Char} (h : isDigitChar c = true) :
    c ≠ '_' ∧ c ≠ '-' ∧ c ≠ '+' := by
  unfold isDigitChar at h
  simp only [Bool.and_eq_true, decide_eq_true_eq] at h
  refine ⟨?_, ?_, ?_⟩ <;> rintro rfl <;> simp at h

theorem natDecimalChars_ne_nil (n : Nat) : natDecimalChars n ≠ [] := by
  rw [natDecimalChars_eq]
  by_cases h0 : n = 0 <;> simp [h0]
  intro h
  exact h0 (Nat.digits_eq_nil_iff_eq_zero.mp h)

theorem foldr_digitChar_eq_ofDigits {L : List Nat} (h : ∀ d ∈ L, d < 10) :
    (L.map digitChar).foldr (fun c a => a * 10 + (c.toNat - 48)) 0 = Nat.ofDigits 10 L := by
  induction L with
  | nil => simp [Nat.ofDigits]
  | cons d L ih =>
    simp only [List.map_cons, List.foldr_cons, Nat.ofDigits_cons]
    rw [ih (fun x hx => h x (List.mem_cons_of_mem _ hx))]
    rw [digitChar_toNat (h d (List.mem_cons_self _ _))]
    omega

theorem atoiDigits_natDecimalChars (n : Nat) : atoiDigits (natDecimalChars n) = n := by
  rw [natDecimalChars_eq]
  unfold atoiDigits
  by_cases h0 : n = 0
  · simp [h0]
  · simp only [h0, if_false, List.foldl_reverse]
    rw [foldr_digitChar_eq_ofDigits (fun d hd => Nat.digits_lt_base (by norm_num) hd)]
    exact_mod_cast Nat.ofDigits_digits 10 n

theorem goAtoi_all_digits {cs : List Char} (hne : cs ≠ [])
    (hall : ∀ x ∈ cs, isDigitChar x = true) :
    goAtoi cs = some ((atoiDigits cs : Nat) : Int) := by
  rcases cs with _ | ⟨c, rest⟩
  · exact absurd rfl hne
  · obtain ⟨-, h2, h3⟩ := ne_of_isDigitChar (hall c (List.mem_cons_self _ _))
    simp [goAtoi, h2, h3, hall]
    exact fun x hx => hall x (List.mem_cons_of_mem _ hx)

theorem goAtoi_natDecimalChars (n : Nat) : goAtoi (natDecimalChars n) = some (n : Int) := by
  rw [goAtoi_all_digits (natDecimalChars_ne_nil n)
    (fun x hx => isDigitChar_mem_natDecimalChars hx)]
  rw [atoiDigits_natDecimalChars]

theorem lastIndexOfCharAux_not_mem {c : Char} {l : List Char} (h : c ∉ l) :
    ∀ i acc, lastIndexOfCharAux c l i acc = acc := by
  induction l with
  | nil => intro i acc; rfl
  | cons x xs ih =>
    intro i acc
    unfold lastIndexOfCharAux
    rw [if_neg (by rintro rfl; exact h (List.mem_cons_self _ _))]
    exact ih (fun hm => h (List.mem_cons_of_mem _ hm)) _ _

theorem lastIndexOfCharAux_append {c : Char} {rest : List Char} (hrest : c ∉ rest) :
    ∀ (xs : List Char) (i : Nat) (acc : Option Nat),
      lastIndexOfCharAux c (xs ++ c :: rest) i acc = some (i + xs.length) := by
  intro xs
  induction xs with
  | nil =>
    intro i acc
    simp only [List.nil_append, lastIndexOfCharAux, if_pos rfl]
    rw [lastIndexOfCharAux_not_mem hrest]
    simp
  | cons x xs ih =>
    intro i acc
    simp only [List.cons_append, lastIndexOfCharAux, List.append_eq]
    rw [ih (i + 1)]
    simp only [List.length_cons]
    congr 1
    omega

theorem lastIndexOfChar_append {c : Char} {pre rest : List Char} (hrest : c ∉ rest) :
    lastIndexOfChar (pre ++ c :: rest) c = some pre.length := by
  unfold lastIndexOfChar
  rw [lastIndexOfCharAux_append hrest]
  simp

theorem not_underscore_mem_goItoaInt {idx : Int} : '_' ∉ (goItoaInt idx).data := by
  intro h
  unfold goItoaInt at h
  by_cases hneg : idx < 0
  · simp only [hneg, if_true] at h
    change '_' ∈ '-' :: natDecimalChars idx.natAbs at h
    rcases List.mem_cons.mp h with h | h
    · exact absurd h (by decide)
    · exact absurd ((ne_of_isDigitChar (isDigitChar_mem_natDecimalChars h)).1) (by simp)
  · simp only [hneg, if_false] at h
    change '_' ∈ natDecimalChars idx.natAbs at h
    exact absurd ((ne_of_isDigitChar (isDigitChar_mem_natDecimalChars h)).1) (by simp)

theorem goAtoi_goItoaInt (idx : Int) : goAtoi (goItoaInt idx).data = some idx := by
  unfold goItoaInt
  by_cases hneg : idx < 0
  · simp only [hneg, if_true]
    change goAtoi ('-' :: natDecimalChars idx.natAbs) = some idx
    have hall : ∀ x ∈ natDecimalChars idx.natAbs, isDigitChar x = true :=
      fun x hx => isDigitChar_mem_natDecimalChars hx
    rcases hc : natDecimalChars idx.natAbs with _ | ⟨c, rest⟩
    · exact absurd hc (natDecimalChars_ne_nil _)
    · rw [hc] at hall
      have hn : atoiDigits (c :: rest) = idx.natAbs := by
        rw [← hc, atoiDigits_natDecimalChars]
      simp [goAtoi, hall]
      rw [hn]
      exact ⟨fun x hx => hall x (List.mem_cons_of_mem _ hx), by omega⟩
  · simp only [hneg, if_false]
    change goAtoi (natDecimalChars idx.natAbs) = some idx
    rw [goAtoi_natDecimalChars]
    congr 1
    omega

/-- C9: for every stream name-or-type and every quality index, building the
    representation id as name_index and splitting it at the last underscore,
    exactly as the init and segment handlers do, recovers the original pair. -/
theorem c9_rep_id_round_trip (streamIndexName : String) (index : Int) :
    splitQualityId (buildRepId streamIndexName index) = some (streamIndexName, index) := by
  have hdata : (streamIndexName ++ "_" ++ goItoaInt index).data
      = streamIndexName.data ++ '_' :: (goItoaInt index).data := by
    simp [String.data_append]
  have hne : (goItoaInt index).data ≠ [] := by
    unfold goItoaInt
    by_cases hneg : index < 0
    · simp [hneg]
    · simpa [hneg] using natDecimalChars_ne_nil index.natAbs
  have hdrop : (streamIndexName.data ++ '_' :: (goItoaInt index).data).drop
      (streamIndexName.data.length + 1) = (goItoaInt index).data := by
    have h1 : streamIndexName.data ++ '_' :: (goItoaInt index).data
        = (streamIndexName.data ++ ['_']) ++ (goItoaInt index).data := by simp
    have h2 : streamIndexName.data.length + 1 = (streamIndexName.data ++ ['_']).length := by
      simp
    rw [h1, h2, List.drop_left]
  have htake : (streamIndexName.data ++ '_' :: (goItoaInt index).data).take
      streamIndexName.data.length = streamIndexName.data := by
    rw [List.take_append_eq_append_take]
    simp
  simp only [buildRepId, splitQualityId, hdata,
    lastIndexOfChar_append not_underscore_mem_goItoaInt]
  rw [if_neg (by
    have h := List.length_pos.mpr hne
    simp only [List.length_append, List.length_cons]
    omega)]
  rw [hdrop, goAtoi_goItoaInt, htake]

theorem drop8_of_length16 {B : List Nat} (h : B.length = 16) :
    B.drop 8 = [B.getD 8 0, B.getD 9 0, B.getD 10 0, B.getD 11 0,
      B.getD 12 0, B.getD 13 0, B.getD 14 0, B.getD 15 0] := by
  obtain ⟨b0, b1, b2, b3, b4, b5, b6, b7, b8, b9, b10, b11, b12, b13, b14, b15, tl, rfl⟩ :
      ∃ b0 b1 b2 b3 b4 b5 b6 b7 b8 b9 b10 b11 b12 b13 b14 b15 tl,
        B = b0 :: b1 :: b2 :: b3 :: b4 :: b5 :: b6 :: b7 :: b8 :: b9 :: b10 :: b11 :: b12
          :: b13 :: b14 :: b15 :: tl := by
    match B, h with
    | b0 :: b1 :: b2 :: b3 :: b4 :: b5 :: b6 :: b7 :: b8 :: b9 :: b10 :: b11 :: b12
        :: b13 :: b14 :: b15 :: tl, _ =>
      exact ⟨b0, b1, b2, b3, b4, b5, b6, b7, b8, b9, b10, b11, b12, b13, b14, b15, tl, rfl⟩
  have htl : tl = [] := by simpa using h
  subst htl
  rfl

/-- C3: for every PSSH input whose regex-extracted KID payload base64-decodes
    to sixteen bytes B, ExtractPRKeyIdFromPssh returns exactly the bytes
    B3 B2 B1 B0 B5 B4 B7 B6 B8..B15, with no error. -/
theorem c3_pr_kid_byte_order (data : List Nat) (payload : List Char) (B : List Nat)
    (h9 : 9 ≤ data.length)
    (hfind : findKid (utf16DecodeList (prShorts data)) = some payload)
    (hdec : base64Decode payload = some B)
    (h16 : B.length = 16) :
    extractPRKeyIdFromPssh data = PRKidOutcome.ret (some
      ([B.getD 3 0, B.getD 2 0, B.getD 1 0, B.getD 0 0,
        B.getD 5 0, B.getD 4 0, B.getD 7 0, B.getD 6 0] ++ B.drop 8)) false := by
  unfold extractPRKeyIdFromPssh
  rw [if_neg (by omega)]
  simp only [hfind, hdec]
  rw [if_neg (by omega)]
  rw [drop8_of_length16 h16]
  rfl

theorem c3_pr_kid_byte_order_witness :
    extractPRKeyIdFromPssh c3Data = PRKidOutcome.ret
      (some [3, 2, 1, 0, 5, 4, 7, 6, 8, 9, 10, 11, 12, 13, 14, 15]) false := by
  have h := c3_pr_kid_byte_order c3Data ("AAECAwQFBgcICQoLDA0ODw==".data)
    [0, 1, 2, 3, 4, 5, 6, 7, 8, 9, 10, 11, 12, 13, 14, 15]
    (by decide) (by decide) (by decide) (by decide)
  simpa using h

theorem c4_counterexample :
    findKid (utf16DecodeList (prShorts c4Data)) = some ("AAECAwQFBgcICQoLDA0O".data) ∧
    base64Decode ("AAECAwQFBgcICQoLDA0O".data) =
      some [0, 1, 2, 3, 4, 5, 6, 7, 8, 9, 10, 11, 12, 13, 14] ∧
    extractPRKeyIdFromPssh c4Data = PRKidOutcome.ret none false :=
  ⟨by decide, by decide, by decide⟩

/-- C4 (amended): when the regex-extracted KID payload base64-decodes to a
    byte string whose length is not 16, ExtractPRKeyIdFromPssh returns a nil
    KID together with a nil error: extraction does not succeed, but no error
    is reported either (callers detect the failure from the nil KID). -/
theorem c4_bad_kid_length_no_error (data : List Nat) (payload : List Char) (B : List Nat)
    (h9 : 9 ≤ data.length)
    (hfind : findKid (utf16DecodeList (prShorts data)) = some payload)
    (hdec : base64Decode payload = some B)
    (hne : B.length ≠ 16) :
    extractPRKeyIdFromPssh data = PRKidOutcome.ret none false := by
  unfold extractPRKeyIdFromPssh
  rw [if_neg (by omega)]
  simp only [hfind, hdec]
  rw [if_pos hne]

theorem c4_bad_kid_length_no_error_witness :
    extractPRKeyIdFromPssh c4Data = PRKidOutcome.ret none false :=
  c4_bad_kid_length_no_error c4Data ("AAECAwQFBgcICQoLDA0O".data)
    [0, 1, 2, 3, 4, 5, 6, 7, 8, 9, 10, 11, 12, 13, 14]
    (by decide) (by decide) (by decide) (by decide)

/-- C5: the claim states that EC-3 private data whose decoded length is
    shorter than 22 bytes is reported as a malformed-private-data error. The
    code instead panics: for the hex input 0000 (decoded length 2, passing
    the only length guard, which requires at least 2 bytes), the slice
    expression info[6:22] inside extractDolbyDigitalPlusInfo is out of range.
    This theorem evaluates the embedded code at that failing input, for any
    behaviour of the external dec3 box decoder. -/
theorem c5_short_private_data_crashes {α : Type} (dec3Decode : List Nat → Option α) :
    codecPrivateDataToDec3Box dec3Decode "0000" = GoCall.crashed := rfl

theorem mapMOption_forall₂ {α β : Type} {f : α → Option β} :
    ∀ {l : List α} {l2 : List β}, mapMOption f l = some l2 →
      List.Forall₂ (fun a b => f a = some b) l l2 := by
  intro l
  induction l with
  | nil =>
    intro l2 h
    simp only [mapMOption] at h
    obtain rfl := Option.some.inj h
    exact List.Forall₂.nil
  | cons a l ih =>
    intro l2 h
    simp only [mapMOption] at h
    rcases hfa : f a with _ | b <;> rw [hfa] at h
    · exact absurd h (by simp)
    · rcases hml : mapMOption f l with _ | bs <;> rw [hml] at h
      · exact absurd h (by simp)
      · obtain rfl := Option.some.inj h
        exact List.Forall₂.cons hfa (ih hml)

theorem mapMOption_self {α : Type} {f : α → Option α} :
    ∀ {l : List α}, (∀ a ∈ l, f a = some a) → mapMOption f l = some l := by
  intro l
  induction l with
  | nil => intro _; rfl
  | cons a l ih =>
    intro h
    simp only [mapMOption, h a (List.mem_cons_self _ _),
      ih (fun x hx => h x (List.mem_cons_of_mem _ hx))]

theorem mapMExcept_forall₂ {ε α β : Type} {f : α → Except ε β} :
    ∀ {l : List α} {l2 : List β}, mapMExcept f l = .ok l2 →
      List.Forall₂ (fun a b => f a = .ok b) l l2 := by
  intro l
  induction l with
  | nil =>
    intro l2 h
    simp only [mapMExcept] at h
    obtain rfl := Except.ok.inj h
    exact List.Forall₂.nil
  | cons a l ih =>
    intro l2 h
    simp only [mapMExcept] at h
    rcases hfa : f a with e | b <;> rw [hfa] at h
    · exact absurd h (by simp)
    · rcases hml : mapMExcept f l with e | bs <;> rw [hml] at h
      · exact absurd h (by simp)
      · obtain rfl := Except.ok.inj h
        exact List.Forall₂.cons hfa (ih hml)

theorem forall₂_mem_right {α β : Type} {R : α → β → Prop} :
    ∀ {l : List α} {l2 : List β}, List.Forall₂ R l l2 → ∀ b ∈ l2, ∃ a ∈ l, R a b := by
  intro l l2 h
  induction h with
  | nil => intro b hb; simp at hb
  | cons hR hF ih =>
    intro b hb
    rcases List.mem_cons.mp hb with rfl | hb
    · exact ⟨_, List.mem_cons_self _ _, hR⟩
    · obtain ⟨a, ha, hr⟩ := ih b hb
      exact ⟨a, List.mem_cons_of_mem _ ha, hr⟩

theorem isSdtp_eq_true {c : TrafChild} (h : c.isSdtp = true) : c = .sdtp := by
  cases c <;> simp [TrafChild.isSdtp] at h ⊢

theorem isTfdt_eq_true {c : TrafChild} (h : c.isTfdt = true) : ∃ t, c = .tfdt t := by
  cases c <;> simp [TrafChild.isTfdt] at h ⊢

/-- Running the range-loop simulation over a stretch of clean (sdtp-free)
    indexes neither mutates the backing array nor the field length; it only
    accumulates the tfdt flag over the visited window. -/
theorem sdtpScanAux_clean (backing : List TrafChild) (L : Nat) :
    ∀ (d k₀ : Nat) (b : Bool), k₀ + d ≤ backing.length →
      (∀ c ∈ (backing.drop (backing.length - (k₀ + d))).take d, c.isSdtp = false) →
      sdtpScanAux backing L b (k₀ + d)
        = sdtpScanAux backing L
            (b || ((backing.drop (backing.length - (k₀ + d))).take d).any TrafChild.isTfdt) k₀ := by
  intro d
  induction d with
  | zero => intro k₀ b h1 h2; simp
  | succ d ih =>
    intro k₀ b hle hclean
    have hn : backing.length - (k₀ + (d + 1)) < backing.length := by omega
    have hdrop : backing.drop (backing.length - (k₀ + (d + 1)))
        = backing[backing.length - (k₀ + (d + 1))]
          :: backing.drop (backing.length - (k₀ + (d + 1)) + 1) :=
      List.drop_eq_getElem_cons hn
    have hidx : backing.length - (k₀ + (d + 1)) + 1 = backing.length - (k₀ + d) := by omega
    have hwin : (backing.drop (backing.length - (k₀ + (d + 1)))).take (d + 1)
        = backing[backing.length - (k₀ + (d + 1))]
          :: (backing.drop (backing.length - (k₀ + d))).take d := by
      rw [hdrop, List.take_succ_cons, hidx]
    have hgetD : backing.getD (backing.length - (k₀ + (d + 1))) (.other "")
        = backing[backing.length - (k₀ + (d + 1))] := List.getD_eq_getElem _ _ hn
    have hchild : (backing[backing.length - (k₀ + (d + 1))]).isSdtp = false := by
      apply hclean
      rw [hwin]
      exact List.mem_cons_self _ _
    have hstep : k₀ + (d + 1) = (k₀ + d) + 1 := by omega
    rw [hstep]
    show sdtpScanAux backing L b (k₀ + d + 1) = _
    rw [sdtpScanAux]
    simp only [← hstep, hgetD, hchild, Bool.false_eq_true, if_false]
    have hle2 : k₀ + d ≤ backing.length := by omega
    have hclean2 : ∀ c ∈ (backing.drop (backing.length - (k₀ + d))).take d, c.isSdtp = false := by
      intro c hc
      apply hclean
      rw [hwin]
      exact List.mem_cons_of_mem _ hc
    rw [ih k₀ _ hle2 hclean2]
    congr 1
    rw [hwin]
    simp [Bool.or_assoc]

/-- On sdtp-free children the loop leaves Children untouched and finds any
    tfdt. -/
theorem sdtpScan_no_sdtp {cs : List TrafChild} (h : ∀ c ∈ cs, c.isSdtp = false) :
    sdtpScan cs = some (cs, cs.any TrafChild.isTfdt) := by
  unfold sdtpScan
  have hmain := sdtpScanAux_clean cs cs.length cs.length 0 false (by omega)
    (by
      intro c hc
      exact h c (List.drop_subset _ _ (List.take_subset _ _ hc)))
  rw [Nat.zero_add] at hmain
  rw [hmain]
  simp [sdtpScanAux, List.take_length, Nat.sub_self, List.drop_zero]

/-- On children containing exactly one sdtp, the loop removes it (despite the
    in-place shift) and any true tfdt flag is realized by a tfdt child that
    survives into the result. -/
theorem sdtpScan_one_sdtp (pre post : List TrafChild)
    (hpre : ∀ c ∈ pre, c.isSdtp = false) (hpost : ∀ c ∈ post, c.isSdtp = false) :
    ∃ flag, sdtpScan (pre ++ .sdtp :: post) = some (pre ++ post, flag) ∧
      (flag = true → ∃ t, TrafChild.tfdt t ∈ pre ++ post) := by
  set cs := pre ++ TrafChild.sdtp :: post with hcs
  have hlen : cs.length = pre.length + post.length + 1 := by simp [hcs]; omega
  -- phase 1: walk the clean prefix
  have h1 := sdtpScanAux_clean cs cs.length pre.length (post.length + 1) false
    (by omega)
    (by
      intro c hc
      apply hpre
      have : cs.drop (cs.length - (post.length + 1 + pre.length)) = cs := by
        rw [show cs.length - (post.length + 1 + pre.length) = 0 by omega, List.drop_zero]
      rw [this] at hc
      have htake : cs.take pre.length = pre := by
        rw [hcs]
        exact List.take_left pre _
      rwa [htake] at hc)
  have hwin1 : (cs.drop (cs.length - (post.length + 1 + pre.length))).take pre.length = pre := by
    rw [show cs.length - (post.length + 1 + pre.length) = 0 by omega, List.drop_zero, hcs]
    exact List.take_left pre _
  rw [hwin1] at h1
  -- phase 2: the removal step at index pre.length
  have hj : pre.length < cs.length := by omega
  have hgetj : cs.getD pre.length (.other "") = TrafChild.sdtp := by
    rw [hcs]
    simp [List.getD_eq_getElem?_getD, List.getElem?_append_right (le_refl pre.length)]
  have hstep2 : sdtpScanAux cs cs.length (false || pre.any TrafChild.isTfdt) (post.length + 1)
      = sdtpScanAux
          (cs.take pre.length ++ ((cs.drop (pre.length + 1)).take (cs.length - 1 - pre.length))
            ++ cs.drop (cs.length - 1))
          (cs.length - 1) (false || pre.any TrafChild.isTfdt) post.length := by
    rw [sdtpScanAux]
    rw [show cs.length - (post.length + 1) = pre.length by omega]
    rw [hgetj]
    simp only [TrafChild.isSdtp, TrafChild.isTfdt, if_true, Bool.or_false]
    rw [if_neg (by omega)]
  -- identify the rewritten backing array
  have htakej : cs.take pre.length = pre := by rw [hcs]; exact List.take_left pre _
  have hdropj : cs.drop (pre.length + 1) = post := by
    rw [hcs, show pre.length + 1 = (pre ++ [TrafChild.sdtp]).length by simp]
    rw [show pre ++ TrafChild.sdtp :: post = (pre ++ [TrafChild.sdtp]) ++ post by simp]
    exact List.drop_left _ _
  have hpostlen : cs.length - 1 - pre.length = post.length := by omega
  have htakepost : (cs.drop (pre.length + 1)).take (cs.length - 1 - pre.length) = post := by
    rw [hdropj, hpostlen]
    exact List.take_length post
  -- the rewritten backing array
  set D := cs.drop (cs.length - 1) with hD
  have hDlen : D.length = 1 := by
    rw [hD, List.length_drop]
    omega
  have hback2 : cs.take pre.length ++ ((cs.drop (pre.length + 1)).take (cs.length - 1 - pre.length))
      ++ cs.drop (cs.length - 1) = pre ++ post ++ D := by
    rw [htakej, htakepost]
  have hback2len : (pre ++ post ++ D).length = cs.length := by
    simp [hDlen]
    omega
  have hDpost : ∀ c ∈ D, c ∈ post ∨ post = [] := by
    intro c hc
    by_cases hp : post = []
    · exact Or.inr hp
    · left
      have h1 : cs.length - 1 = (pre.length + 1) + (post.length - 1) := by
        have := List.length_pos.mpr hp
        omega
      rw [hD, h1, ← List.drop_drop, hdropj] at hc
      exact List.mem_of_mem_drop hc
  -- phase 3: walk the clean remainder of the shifted array
  have hwin3eq : (pre ++ post ++ D).drop ((pre ++ post ++ D).length - post.length)
      = (post ++ D).drop 1 := by
    rw [hback2len, show cs.length - post.length = pre.length + 1 by omega]
    rw [List.append_assoc, ← List.drop_drop, List.drop_left]
  have hwin3 : ((pre ++ post ++ D).drop ((pre ++ post ++ D).length - post.length)).take post.length
      = (post ++ D).drop 1 := by
    rw [hwin3eq]
    apply List.take_of_length_le
    simp [hDlen]
  have hwin3mem : ∀ c ∈ (post ++ D).drop 1, c ∈ post ∨ post = [] := by
    intro c hc
    have hmem := List.mem_of_mem_drop hc
    rcases List.mem_append.mp hmem with h | h
    · exact Or.inl h
    · exact hDpost c h
  have hwin3clean : ∀ c ∈ ((pre ++ post ++ D).drop ((pre ++ post ++ D).length - post.length)).take
      post.length, c.isSdtp = false := by
    intro c hc
    rw [hwin3] at hc
    rcases hwin3mem c hc with h | h
    · exact hpost c h
    · exfalso
      rw [h, List.nil_append, List.drop_eq_nil_of_le (by omega)] at hc
      simp at hc
  have h3 := sdtpScanAux_clean (pre ++ post ++ D) (cs.length - 1) post.length 0
    (false || pre.any TrafChild.isTfdt) (by omega) (by simpa using hwin3clean)
  rw [Nat.zero_add] at h3
  -- assemble
  refine ⟨(false || pre.any TrafChild.isTfdt)
      || (((pre ++ post ++ D).drop ((pre ++ post ++ D).length - post.length)).take
        post.length).any TrafChild.isTfdt, ?_, ?_⟩
  · unfold sdtpScan
    rw [show cs.length = (post.length + 1) + pre.length by omega] at h1
    rw [show (post.length + 1) + pre.length = cs.length by omega] at h1
    rw [h1, hstep2, hback2, h3]
    show some ((pre ++ post ++ D).take (cs.length - 1), _) = _
    have htk : (pre ++ post ++ D).take (cs.length - 1) = pre ++ post := by
      rw [show cs.length - 1 = (pre ++ post).length by simp; omega]
      exact List.take_left _ _
    rw [htk]
  · intro hflag
    simp only [Bool.false_or, Bool.or_eq_true] at hflag
    rcases hflag with h | h
    · obtain ⟨c, hcmem, hct⟩ := List.any_eq_true.mp h
      obtain ⟨t, rfl⟩ := isTfdt_eq_true hct
      exact ⟨t, List.mem_append.mpr (Or.inl hcmem)⟩
    · obtain ⟨c, hcmem, hct⟩ := List.any_eq_true.mp h
      obtain ⟨t, rfl⟩ := isTfdt_eq_true hct
      rw [hwin3] at hcmem
      rcases hwin3mem _ hcmem with hm | hm
      · exact ⟨t, List.mem_append.mpr (Or.inr hm)⟩
      · exfalso
        rw [hm, List.nil_append, List.drop_eq_nil_of_le (by omega)] at hcmem
        simp at hcmem

theorem sdtp_decomp {cs : List TrafChild} (h : sdtpCount cs ≤ 1) :
    (∀ c ∈ cs, c.isSdtp = false) ∨
      ∃ pre post, cs = pre ++ .sdtp :: post ∧ (∀ c ∈ pre, c.isSdtp = false) ∧
        (∀ c ∈ post, c.isSdtp = false) := by
  induction cs with
  | nil => exact Or.inl (by simp)
  | cons c cs ih =>
    by_cases hsd : c.isSdtp = true
    · right
      obtain rfl := isSdtp_eq_true hsd
      refine ⟨[], cs, by simp, by simp, ?_⟩
      simp only [sdtpCount] at h
      rw [List.countP_cons] at h
      simp [TrafChild.isSdtp] at h
      intro x hx
      have hx2 := h x hx
      cases x <;> simp_all [TrafChild.isSdtp]
    · have hle : sdtpCount cs ≤ 1 := by
        simp only [sdtpCount] at h ⊢
        rw [List.countP_cons] at h
        simp [hsd] at h
        omega
      rcases ih hle with hcl | ⟨pre, post, heq, h1, h2⟩
      · left
        intro x hx
        rcases List.mem_cons.mp hx with rfl | hx
        · simpa using hsd
        · exact hcl x hx
      · right
        refine ⟨c :: pre, post, by rw [heq]; rfl, ?_, h2⟩
        intro x hx
        rcases List.mem_cons.mp hx with rfl | hx
        · simpa using hsd
        · exact h1 x hx

/-- What the video processor does to one fragment when the traf has at most
    one sdtp child. -/
theorem processVideoFragment_spec {chunkId : Nat} {f g : Fragment}
    (hc : sdtpCount f.trafChildren ≤ 1)
    (hg : processVideoFragment chunkId f = some g) :
    g.tfhd = { f.tfhd with trackID := 1 } ∧
    (∃ t ts, f.truns = t :: ts ∧ g.truns = { t with dataOffset := 0 } :: ts) ∧
    (∀ c ∈ g.trafChildren, c.isSdtp = false) ∧
    g.trafChildren.any TrafChild.isTfdt = true ∧
    (∀ t, TrafChild.tfdt t ∈ f.trafChildren → TrafChild.tfdt t ∈ g.trafChildren) ∧
    g.mdat = f.mdat ∧ g.fragChildren = f.fragChildren := by
  unfold processVideoFragment at hg
  rcases htr : f.truns with _ | ⟨t0, ts⟩ <;> rw [htr] at hg
  · exact absurd hg (by simp)
  rcases sdtp_decomp hc with hclean | ⟨pre, post, heq, h1, h2⟩
  · rw [sdtpScan_no_sdtp hclean] at hg
    obtain rfl := Option.some.inj hg
    refine ⟨rfl, ⟨t0, ts, rfl, rfl⟩, ?_, ?_, ?_, rfl, rfl⟩
    · intro c hcm
      simp only at hcm
      by_cases hany : f.trafChildren.any TrafChild.isTfdt
      · rw [if_pos hany] at hcm
        exact hclean c hcm
      · rw [if_neg hany] at hcm
        rcases List.mem_append.mp hcm with hm | hm
        · exact hclean c hm
        · simp at hm
          rw [hm]
          rfl
    · simp only
      by_cases hany : f.trafChildren.any TrafChild.isTfdt
      · rw [if_pos hany]
        exact hany
      · rw [if_neg hany]
        simp [TrafChild.isTfdt]
    · intro t hm
      simp only
      by_cases hany : f.trafChildren.any TrafChild.isTfdt
      · rw [if_pos hany]
        exact hm
      · rw [if_neg hany]
        exact List.mem_append.mpr (Or.inl hm)
  · obtain ⟨flag, hscan, hflag⟩ := sdtpScan_one_sdtp pre post h1 h2
    rw [heq, hscan] at hg
    obtain rfl := Option.some.inj hg
    have hcleanpp : ∀ c ∈ pre ++ post, c.isSdtp = false := by
      intro c hcm
      rcases List.mem_append.mp hcm with hm | hm
      · exact h1 c hm
      · exact h2 c hm
    refine ⟨rfl, ⟨t0, ts, rfl, rfl⟩, ?_, ?_, ?_, rfl, rfl⟩
    · intro c hcm
      simp only at hcm
      by_cases hfl : flag = true
      · rw [if_pos hfl] at hcm
        exact hcleanpp c hcm
      · rw [if_neg hfl] at hcm
        rcases List.mem_append.mp hcm with hm | hm
        · exact hcleanpp c hm
        · simp at hm
          rw [hm]
          rfl
    · simp only
      by_cases hfl : flag = true
      · rw [if_pos hfl]
        obtain ⟨t, hmem⟩ := hflag hfl
        exact List.any_eq_true.mpr ⟨_, hmem, rfl⟩
      · rw [if_neg hfl]
        simp [TrafChild.isTfdt]
    · intro t hm
      simp only
      rw [heq] at hm
      have hmem : TrafChild.tfdt t ∈ pre ++ post := by
        rcases List.mem_append.mp hm with hmm | hmm
        · exact List.mem_append.mpr (Or.inl hmm)
        · rcases List.mem_cons.mp hmm with habs | hmm
          · exact absurd habs (by simp)
          · exact List.mem_append.mpr (Or.inr hmm)
      by_cases hfl : flag = true
      · rw [if_pos hfl]
        exact hmem
      · rw [if_neg hfl]
        exact List.mem_append.mpr (Or.inl hmem)

/-- Second video pass on an at-most-one-sdtp fragment is the identity. -/
theorem processVideoFragment_idem {chunkId : Nat} {f g : Fragment}
    (hc : sdtpCount f.trafChildren ≤ 1)
    (hg : processVideoFragment chunkId f = some g) :
    processVideoFragment chunkId g = some g := by
  obtain ⟨htfhd, ⟨t0, ts, htr, htr2⟩, hclean, hany, -, -, -⟩ :=
    processVideoFragment_spec hc hg
  unfold processVideoFragment
  rw [htr2, sdtpScan_no_sdtp hclean, hany]
  obtain ⟨gt, gr, gc, gf, gm⟩ := g
  simp only at htfhd htr2 hany ⊢
  rw [htfhd]
  simp [htr2]

/-- Audio preservation and idempotence in one characterization. -/
theorem processAudioFragment_spec {chunkId : Nat} {f g : Fragment}
    (hg : processAudioFragment chunkId f = some g) :
    g.tfhd = { f.tfhd with trackID := 1 } ∧
    g.trafChildren.any TrafChild.isTfdt = true ∧
    (∀ t, TrafChild.tfdt t ∈ f.trafChildren → TrafChild.tfdt t ∈ g.trafChildren) ∧
    processAudioFragment chunkId g = some g := by
  unfold processAudioFragment at hg ⊢
  rcases htr : f.truns with _ | ⟨t0, ts⟩ <;> rw [htr] at hg
  · exact absurd hg (by simp)
  obtain rfl := Option.some.inj hg
  have hany2 : (if f.trafChildren.any TrafChild.isTfdt then f.trafChildren
      else f.trafChildren ++ [TrafChild.tfdt chunkId]).any TrafChild.isTfdt = true := by
    by_cases hany : f.trafChildren.any TrafChild.isTfdt
    · rw [if_pos hany]
      exact hany
    · rw [if_neg hany]
      simp [TrafChild.isTfdt]
  refine ⟨rfl, hany2, ?_, ?_⟩
  · intro t hm
    simp only
    by_cases hany : f.trafChildren.any TrafChild.isTfdt
    · rw [if_pos hany]
      exact hm
    · rw [if_neg hany]
      exact List.mem_append.mpr (Or.inl hm)
  · simp only [hany2, if_true]

/-- Subtitle per-fragment facts: track id one and tfdt preservation. -/
theorem processSubtitleFragment_spec {chunkId timeScale dur : Nat} {f g : Fragment}
    (hg : processSubtitleFragment chunkId timeScale dur f = .ok g) :
    g.tfhd.trackID = 1 ∧
    (∀ t, TrafChild.tfdt t ∈ f.trafChildren → TrafChild.tfdt t ∈ g.trafChildren) := by
  simp only [processSubtitleFragment] at hg
  rcases hu : updateTTML f.mdat ⟨(chunkId : Int), (timeScale : Int)⟩ with e | newMdat <;>
    rw [hu] at hg
  · exact absurd hg (by simp)
  obtain rfl := Except.ok.inj hg
  refine ⟨rfl, ?_⟩
  intro t hm
  simp only
  by_cases hany : f.trafChildren.any TrafChild.isTfdt
  · rw [if_pos hany]
    exact hm
  · rw [if_neg hany]
    exact List.mem_append.mpr (Or.inl hm)

/-- The loop simulation never loses a tfdt child from the live region of the
    Children slice: removals always delete the sdtp cell that was just read.
    The backing length is invariant and the live length stays within it. -/
theorem sdtpScanAux_preserves (k : Nat) :
    ∀ (backing : List TrafChild) (L : Nat) (b : Bool) (b2 : List TrafChild) (L2 : Nat) (fl : Bool),
      L ≤ backing.length →
      sdtpScanAux backing L b k = some (b2, L2, fl) →
      L2 ≤ b2.length ∧
        ∀ t, TrafChild.tfdt t ∈ backing.take L → TrafChild.tfdt t ∈ b2.take L2 := by
  induction k with
  | zero =>
    intro backing L b b2 L2 fl hL h
    simp only [sdtpScanAux, Option.some.injEq, Prod.mk.injEq] at h
    obtain ⟨rfl, rfl, rfl⟩ := h
    exact ⟨hL, fun t ht => ht⟩
  | succ k ih =>
    intro backing L b b2 L2 fl hL h
    rw [sdtpScanAux] at h
    by_cases hsd : (backing.getD (backing.length - (k + 1)) (TrafChild.other "")).isSdtp = true
    · have hIlt : backing.length - (k + 1) < backing.length := by
        by_contra hge
        rw [List.getD_eq_default] at hsd
        · simp [TrafChild.isSdtp] at hsd
        · omega
      by_cases hpanic : L < backing.length - (k + 1) + 1
      · rw [if_pos hsd, if_pos hpanic] at h
        exact absurd h (by simp)
      · rw [if_pos hsd, if_neg hpanic] at h
        have hiL : backing.length - (k + 1) + 1 ≤ L := by omega
        set i := backing.length - (k + 1) with hidef
        set A := backing.take i with hA
        set B := (backing.drop (i + 1)).take (L - 1 - i) with hB
        set C := backing.drop (L - 1) with hC
        have hAlen : A.length = i := by
          rw [hA, List.length_take]
          omega
        have hBlen : B.length = L - 1 - i := by
          rw [hB, List.length_take, List.length_drop]
          omega
        have hClen : C.length = backing.length - (L - 1) := by
          rw [hC, List.length_drop]
        have hlen2 : (A ++ B ++ C).length = backing.length := by
          simp only [List.length_append, hAlen, hBlen, hClen]
          omega
        have hL2 : L - 1 ≤ (A ++ B ++ C).length := by omega
        obtain ⟨hout1, hout2⟩ := ih (A ++ B ++ C) (L - 1) _ b2 L2 fl hL2 h
        refine ⟨hout1, ?_⟩
        intro t ht
        apply hout2
        have hgetelem : backing.getD i (TrafChild.other "") = backing[i] :=
          List.getD_eq_getElem _ _ hIlt
        have hsdtp : backing[i] = TrafChild.sdtp := by
          rw [← hgetelem]
          exact isSdtp_eq_true hsd
        have htakeL : backing.take L = A ++ backing[i] :: ((backing.drop (i + 1)).take (L - 1 - i)) := by
          rw [show L = i + (L - i) by omega, List.take_add, hA]
          congr 1
          rw [List.drop_eq_getElem_cons hIlt, show L - i = (L - 1 - i) + 1 by omega,
            List.take_succ_cons]
          congr 2
          omega
        have htake2 : (A ++ B ++ C).take (L - 1) = A ++ B := by
          rw [show L - 1 = (A ++ B).length by simp [hAlen, hBlen]; omega]
          exact List.take_left _ _
        rw [htake2]
        rw [htakeL] at ht
        rcases List.mem_append.mp ht with hm | hm
        · exact List.mem_append.mpr (Or.inl hm)
        · rcases List.mem_cons.mp hm with habs | hm
          · rw [hsdtp] at habs
            exact absurd habs (by simp)
          · exact List.mem_append.mpr (Or.inr hm)
    · rw [if_neg hsd] at h
      exact ih backing L _ b2 L2 fl hL h

theorem sdtpScan_preserves {cs cs2 : List TrafChild} {fl : Bool}
    (h : sdtpScan cs = some (cs2, fl)) :
    ∀ t, TrafChild.tfdt t ∈ cs → TrafChild.tfdt t ∈ cs2 := by
  unfold sdtpScan at h
  rcases haux : sdtpScanAux cs cs.length false cs.length with _ | ⟨b2, L2, fl2⟩ <;>
    rw [haux] at h
  · exact absurd h (by simp)
  · simp only [Option.map, Option.some.injEq, Prod.mk.injEq] at h
    obtain ⟨h1, -⟩ := h
    have hmain := sdtpScanAux_preserves cs.length cs cs.length false b2 L2 fl2 (le_refl _) haux
    intro t ht
    rw [← h1]
    exact hmain.2 t (by rw [List.take_length]; exact ht)

/-- Track id and tfdt preservation for the video processor, with no
    assumption on the sdtp count. -/
theorem processVideoFragment_track_tfdt {chunkId : Nat} {f g : Fragment}
    (hg : processVideoFragment chunkId f = some g) :
    g.tfhd.trackID = 1 ∧
      (∀ t, TrafChild.tfdt t ∈ f.trafChildren → TrafChild.tfdt t ∈ g.trafChildren) := by
  unfold processVideoFragment at hg
  rcases htr : f.truns with _ | ⟨t0, ts⟩ <;> rw [htr] at hg
  · exact absurd hg (by simp)
  rcases hscan : sdtpScan f.trafChildren with _ | ⟨p⟩ <;> rw [hscan] at hg
  · exact absurd hg (by simp)
  obtain ⟨cs2, fl⟩ := p
  obtain rfl := Option.some.inj hg
  refine ⟨rfl, ?_⟩
  intro t ht
  simp only
  have hmem := sdtpScan_preserves hscan t ht
  by_cases hfl : fl = true
  · rw [if_pos hfl]
    exact hmem
  · rw [if_neg hfl]
    exact List.mem_append.mpr (Or.inl hmem)

theorem mapM2Option_out {f : Fragment → Option Fragment} {P : Fragment → Prop}
    (hP : ∀ a b, f a = some b → P b) {segs segs2 : List (List Fragment)}
    (h : mapMOption (mapMOption f) segs = some segs2) :
    ∀ seg ∈ segs2, ∀ fr ∈ seg, P fr := by
  intro seg hseg fr hfr
  obtain ⟨seg0, hseg0, hseg0eq⟩ := forall₂_mem_right (mapMOption_forall₂ h) seg hseg
  obtain ⟨f0, hf0, hf0eq⟩ := forall₂_mem_right (mapMOption_forall₂ hseg0eq) fr hfr
  exact hP f0 fr hf0eq

theorem mapM2Except_out {f : Fragment → Except String Fragment} {P : Fragment → Prop}
    (hP : ∀ a b, f a = .ok b → P b) {segs segs2 : List (List Fragment)}
    (h : mapMExcept (mapMExcept f) segs = .ok segs2) :
    ∀ seg ∈ segs2, ∀ fr ∈ seg, P fr := by
  intro seg hseg fr hfr
  obtain ⟨seg0, hseg0, hseg0eq⟩ := forall₂_mem_right (mapMExcept_forall₂ h) seg hseg
  obtain ⟨f0, hf0, hf0eq⟩ := forall₂_mem_right (mapMExcept_forall₂ hseg0eq) fr hfr
  exact hP f0 fr hf0eq

theorem mapM2Option_rel {f : Fragment → Option Fragment} {R : Fragment → Fragment → Prop}
    (hR : ∀ a b, f a = some b → R a b) {segs segs2 : List (List Fragment)}
    (h : mapMOption (mapMOption f) segs = some segs2) :
    List.Forall₂ (List.Forall₂ R) segs segs2 :=
  (mapMOption_forall₂ h).imp
    (fun _ _ hab => (mapMOption_forall₂ hab).imp (fun x y hxy => hR x y hxy))

theorem mapM2Except_rel {f : Fragment → Except String Fragment} {R : Fragment → Fragment → Prop}
    (hR : ∀ a b, f a = .ok b → R a b) {segs segs2 : List (List Fragment)}
    (h : mapMExcept (mapMExcept f) segs = .ok segs2) :
    List.Forall₂ (List.Forall₂ R) segs segs2 :=
  (mapMExcept_forall₂ h).imp
    (fun _ _ hab => (mapMExcept_forall₂ hab).imp (fun x y hxy => hR x y hxy))

theorem mapMOption_idem {α : Type} {f : α → Option α} {P : α → Prop}
    (hid : ∀ a b, P a → f a = some b → f b = some b) :
    ∀ {l l2 : List α}, (∀ a ∈ l, P a) → mapMOption f l = some l2 →
      mapMOption f l2 = some l2 := by
  intro l l2 hP h
  apply mapMOption_self
  intro b hb
  obtain ⟨a, ha, hab⟩ := forall₂_mem_right (mapMOption_forall₂ h) b hb
  exact hid a b (hP a ha) hab

/-- C1 (amended): the AVC, AAC and EC-3 init generators emit a moov with a
    single trak of track id 1; the TTML/STPP generator emits TWO traks, with
    ids 1 and 2 (the stpp sample entry sits on trak 1); and every fragment
    emitted by any of the three segment processors carries tfhd track id 1. -/
theorem c1_track_ids :
    (∀ s init, avcInitGenerate s = some init →
      init.moov.traks.map TrakBox.trackID = [1]) ∧
    (∀ aacDecode s init, aacInitGenerate aacDecode s = some init →
      init.moov.traks.map TrakBox.trackID = [1]) ∧
    (∀ dec3Decode s init, de3InitGenerate dec3Decode s = GoCall.ok init →
      init.moov.traks.map TrakBox.trackID = [1]) ∧
    (∀ s, (stppInitGenerate s).moov.traks.map TrakBox.trackID = [1, 2]) ∧
    (∀ chunkId file out, processVideoSegment chunkId file = some out →
      ∀ seg ∈ out.segments, ∀ fr ∈ seg, fr.tfhd.trackID = 1) ∧
    (∀ chunkId file out, processAudioSegment chunkId file = some out →
      ∀ seg ∈ out.segments, ∀ fr ∈ seg, fr.tfhd.trackID = 1) ∧
    (∀ chunkId timeScale dur file out,
      processSubtitleSegment chunkId timeScale dur file = .ok out →
      ∀ seg ∈ out.segments, ∀ fr ∈ seg, fr.tfhd.trackID = 1) := by
  refine ⟨?_, ?_, ?_, ?_, ?_, ?_, ?_⟩
  · intro s init h
    unfold avcInitGenerate at h
    rcases hp : codecPrivateDataToSPSPPS s.codecPrivateData with _ | ⟨sps, pps⟩ <;>
      simp only [hp] at h
    · exact absurd h (by simp)
    rcases hk : s.keyId with _ | kid <;> rcases hq : s.pssh with _ | pssh <;>
      simp only [hk, hq] at h <;> obtain rfl := Option.some.inj h.symm <;>
      simp [newBaseInitSegment, addEmptyTrack, setFirstTrakStsd, addPrEncryption]
  · intro aacDecode s init h
    unfold aacInitGenerate at h
    rcases hp : codecPrivateDataToASC aacDecode s.codecPrivateData with _ | ⟨objType, freq⟩ <;>
      simp only [hp] at h
    · exact absurd h (by simp)
    rcases hk : s.keyId with _ | kid <;> rcases hq : s.pssh with _ | pssh <;>
      simp only [hk, hq] at h <;> obtain rfl := Option.some.inj h.symm <;>
      simp [newBaseInitSegment, addEmptyTrack, setFirstTrakStsd, addPrEncryption]
  · intro dec3Decode s init h
    unfold de3InitGenerate at h
    rcases hp : codecPrivateDataToDec3Box dec3Decode s.codecPrivateData with payload | e | _ <;>
      simp only [hp] at h
    · rcases hk : s.keyId with _ | kid <;> rcases hq : s.pssh with _ | pssh <;>
        simp only [hk, hq] at h <;> obtain rfl := GoCall.ok.inj h.symm <;>
        simp [newBaseInitSegment, addEmptyTrack, setFirstTrakStsd, addPrEncryption]
    · exact absurd h (by simp)
    · exact absurd h (by simp)
  · intro s
    simp [stppInitGenerate, newBaseInitSegment, addEmptyTrack, setFirstTrakStsd]
  · intro chunkId file out h
    unfold processVideoSegment at h
    rcases hm : mapMOption (mapMOption (processVideoFragment chunkId)) file.segments with
      _ | segs2 <;> rw [hm] at h
    · exact absurd h (by simp)
    · obtain rfl := Option.some.inj h
      exact mapM2Option_out (fun a b hb => (processVideoFragment_track_tfdt hb).1) hm
  · intro chunkId file out h
    unfold processAudioSegment at h
    rcases hm : mapMOption (mapMOption (processAudioFragment chunkId)) file.segments with
      _ | segs2 <;> rw [hm] at h
    · exact absurd h (by simp)
    · obtain rfl := Option.some.inj h
      exact mapM2Option_out
        (fun a b hb => by rw [(processAudioFragment_spec hb).1]) hm
  · intro chunkId timeScale dur file out h
    unfold processSubtitleSegment at h
    rcases hm : mapMExcept (mapMExcept (processSubtitleFragment chunkId timeScale dur))
        file.segments with e | segs2 <;> rw [hm] at h
    · exact absurd h (by simp [Except.map])
    · simp only [Except.map, Except.ok.injEq] at h
      obtain rfl := h
      exact mapM2Except_out (fun a b hb => (processSubtitleFragment_spec hb).1) hm

theorem c1_counterexample :
    (stppInitGenerate c1StppInput).moov.traks.map TrakBox.trackID = [1, 2] ∧
    ¬((stppInitGenerate c1StppInput).moov.traks.length = 1) := by
  exact ⟨by decide, by decide⟩

theorem c1_track_ids_witness :
    c1AvcInit.moov.traks.map TrakBox.trackID = [1] ∧
    (stppInitGenerate c1StppInput).moov.traks.map TrakBox.trackID = [1, 2] ∧
    c1VideoOutFrag.tfhd.trackID = 1 :=
  ⟨c1_track_ids.1 c1AvcBase c1AvcInit (by decide),
   c1_track_ids.2.2.2.1 c1StppInput,
   c1_track_ids.2.2.2.2.1 1234 c1VideoFile c1VideoOut (by decide)
     [c1VideoOutFrag] (by decide) c1VideoOutFrag (by decide)⟩

/-- C2 (amended): all three processors preserve the base_media_decode_time
    of every tfdt box already present; ProcessAudioSegment applied a second
    time to its own output (same arguments, no decryption key) returns it
    unchanged, and so does ProcessVideoSegment provided every traf carries
    at most one sdtp child (the in-place removal loop misbehaves beyond
    that); ProcessSubtitleSegment is NOT idempotent, because it adds
    time/timescale to the TTML timestamps on every run (see the
    counterexample). -/
theorem c2_tfdt_preservation_idempotence :
    (∀ chunkId file out, processVideoSegment chunkId file = some out →
      List.Forall₂ (List.Forall₂ preservesTfdt) file.segments out.segments) ∧
    (∀ chunkId file out, processAudioSegment chunkId file = some out →
      List.Forall₂ (List.Forall₂ preservesTfdt) file.segments out.segments) ∧
    (∀ chunkId timeScale dur file out,
      processSubtitleSegment chunkId timeScale dur file = .ok out →
      List.Forall₂ (List.Forall₂ preservesTfdt) file.segments out.segments) ∧
    (∀ chunkId file out,
      (∀ seg ∈ file.segments, ∀ fr ∈ seg, sdtpCount fr.trafChildren ≤ 1) →
      processVideoSegment chunkId file = some out →
      processVideoSegment chunkId out = some out) ∧
    (∀ chunkId file out, processAudioSegment chunkId file = some out →
      processAudioSegment chunkId out = some out) := by
  refine ⟨?_, ?_, ?_, ?_, ?_⟩
  · intro chunkId file out h
    unfold processVideoSegment at h
    rcases hm : mapMOption (mapMOption (processVideoFragment chunkId)) file.segments with
      _ | segs2 <;> rw [hm] at h
    · exact absurd h (by simp)
    · obtain rfl := Option.some.inj h
      exact mapM2Option_rel (fun a b hb => (processVideoFragment_track_tfdt hb).2) hm
  · intro chunkId file out h
    unfold processAudioSegment at h
    rcases hm : mapMOption (mapMOption (processAudioFragment chunkId)) file.segments with
      _ | segs2 <;> rw [hm] at h
    · exact absurd h (by simp)
    · obtain rfl := Option.some.inj h
      exact mapM2Option_rel (fun a b hb => (processAudioFragment_spec hb).2.2.1) hm
  · intro chunkId timeScale dur file out h
    unfold processSubtitleSegment at h
    rcases hm : mapMExcept (mapMExcept (processSubtitleFragment chunkId timeScale dur))
        file.segments with e | segs2 <;> rw [hm] at h
    · exact absurd h (by simp [Except.map])
    · simp only [Except.map, Except.ok.injEq] at h
      obtain rfl := h
      exact mapM2Except_rel (fun a b hb => (processSubtitleFragment_spec hb).2) hm
  · intro chunkId file out hcount h
    unfold processVideoSegment at h ⊢
    rcases hm : mapMOption (mapMOption (processVideoFragment chunkId)) file.segments with
      _ | segs2 <;> rw [hm] at h
    · exact absurd h (by simp)
    · obtain rfl := Option.some.inj h
      have hidem := mapMOption_idem
        (f := mapMOption (processVideoFragment chunkId))
        (P := fun seg => ∀ fr ∈ seg, sdtpCount fr.trafChildren ≤ 1)
        (fun seg seg2 hP hseg => mapMOption_idem
          (f := processVideoFragment chunkId)
          (P := fun fr => sdtpCount fr.trafChildren ≤ 1)
          (fun a b hPa hab => processVideoFragment_idem hPa hab) hP hseg)
        hcount hm
      rw [hidem]
      rfl
  · intro chunkId file out h
    unfold processAudioSegment at h ⊢
    rcases hm : mapMOption (mapMOption (processAudioFragment chunkId)) file.segments with
      _ | segs2 <;> rw [hm] at h
    · exact absurd h (by simp)
    · obtain rfl := Option.some.inj h
      have hidem := mapMOption_idem
        (f := mapMOption (processAudioFragment chunkId))
        (P := fun _ => True)
        (fun seg seg2 _ hseg => mapMOption_idem
          (f := processAudioFragment chunkId)
          (P := fun _ => True)
          (fun a b _ hab => (processAudioFragment_spec hab).2.2.2)
          (fun _ _ => trivial) hseg)
        (fun _ _ => trivial) hm
      rw [hidem]
      rfl

theorem c2_tfdt_preservation_idempotence_witness :
    processVideoSegment 1234 c1VideoOut = some c1VideoOut ∧
    processAudioSegment 1234 c2AudioOut = some c2AudioOut ∧
    List.Forall₂ (List.Forall₂ preservesTfdt) c1VideoFile.segments c1VideoOut.segments :=
  ⟨c2_tfdt_preservation_idempotence.2.2.2.1 1234 c1VideoFile c1VideoOut
      (by decide) (by decide),
   c2_tfdt_preservation_idempotence.2.2.2.2 1234 c1VideoFile c2AudioOut (by decide),
   c2_tfdt_preservation_idempotence.1 1234 c1VideoFile c1VideoOut (by decide)⟩

theorem c2_counterexample :
    (processSubtitleSegment 100000000 10000000 60000000 c2File).map fileMdats
      = .ok [["<p begin=\"00:00:11.000\" end=\"00:00:13.500\">hi</p>"]] ∧
    (Except.bind (processSubtitleSegment 100000000 10000000 60000000 c2File)
        (processSubtitleSegment 100000000 10000000 60000000)).map fileMdats
      = .ok [["<p begin=\"00:00:21.000\" end=\"00:00:23.500\">hi</p>"]] ∧
    ¬(Except.bind (processSubtitleSegment 100000000 10000000 60000000 c2File)
        (processSubtitleSegment 100000000 10000000 60000000)
      = processSubtitleSegment 100000000 10000000 60000000 c2File) := by
  have h1 : (processSubtitleSegment 100000000 10000000 60000000 c2File).map fileMdats
      = .ok [["<p begin=\"00:00:11.000\" end=\"00:00:13.500\">hi</p>"]] := by rfl
  have h2 : (Except.bind (processSubtitleSegment 100000000 10000000 60000000 c2File)
        (processSubtitleSegment 100000000 10000000 60000000)).map fileMdats
      = .ok [["<p begin=\"00:00:21.000\" end=\"00:00:23.500\">hi</p>"]] := by rfl
  refine ⟨h1, h2, ?_⟩
  intro heq
  rw [heq, h1] at h2
  simp at h2

/-- C6: for every p-element begin or end attribute whose value parses as a
    TTML time, the rewritten value is the formatted absolute time obtained
    by adding the segment start (time/timescale) seconds; and on the
    spec test vector (begin 00:00:01.000, end 00:00:03.500, time 100000000,
    timescale 10000000) the subtitle processor emits begin 00:00:11.000 and
    end 00:00:13.500. -/
theorem c6_ttml_rebase :
    (∀ (a : XmlAttr) (start seconds : Frac),
      (a.name.localName = "begin" ∨ a.name.localName = "end") →
      parseTTMLTime a.value = some seconds →
      (updateAttrValue start a).value = formatTTMLTime (seconds.add start)) ∧
    (processSubtitleSegment 100000000 10000000 60000000 c2File).map fileMdats
      = .ok [["<p begin=\"00:00:11.000\" end=\"00:00:13.500\">hi</p>"]] := by
  constructor
  · intro a start seconds hname hparse
    unfold updateAttrValue
    have hcond : (a.name.localName = "begin" || a.name.localName = "end") = true := by
      rcases hname with h | h <;> simp [h]
    rw [if_pos hcond, hparse]
  · rfl

theorem c6_ttml_rebase_witness :
    (updateAttrValue (Frac.ofNat 10) c6Attr).value
      = formatTTMLTime (Frac.add ⟨1000, 1000⟩ (Frac.ofNat 10)) :=
  c6_ttml_rebase.1 c6Attr (Frac.ofNat 10) ⟨1000, 1000⟩ (Or.inl rfl) (by decide)

theorem buildAdaptationSet_ok {avcCodec : String → Except String String}
    {hasKeys : Bool} {prot : Option SmoothProtectionHeader} {psshData : String}
    {timeScale index : Nat} {si : StreamIndex} {a : AdaptationSet}
    (h : buildAdaptationSet avcCodec hasKeys prot psshData timeScale index si = .ok a) :
    a.contentType = si.type ∧
    (∀ ph, prot = some ph →
      a.contentProtections =
        if hasKeys = false ∧ (si.type = "video" ∨ si.type = "audio") then
          [msprDescriptor ph psshData]
        else []) ∧
    (prot = none → a.contentProtections = []) := by
  simp only [buildAdaptationSet] at h
  cases hm : mapMExcept (buildRepresentation avcCodec si.type
      (if si.name ≠ "" then si.name else si.type)) si.qualityLevels with
  | error e =>
    rw [hm] at h
    exact Except.noConfusion h
  | ok reps =>
    rw [hm] at h
    injection h with h
    subst h
    refine ⟨rfl, ?_, ?_⟩
    · intro ph hph
      subst hph
      rfl
    · intro hph
      subst hph
      rfl

theorem buildAdaptationSets_cp {avcCodec : String → Except String String}
    {hasKeys allowSubs : Bool} {prot : Option SmoothProtectionHeader}
    {psshData : String} {timeScale : Nat} :
    ∀ (index : Nat) (sis : List StreamIndex) (sets : List AdaptationSet),
      buildAdaptationSets avcCodec hasKeys allowSubs prot psshData timeScale index sis
        = .ok sets →
      ∀ a ∈ sets,
        (∀ ph, prot = some ph →
          a.contentProtections =
            if hasKeys = false ∧ (a.contentType = "video" ∨ a.contentType = "audio") then
              [msprDescriptor ph psshData]
            else []) ∧
        (prot = none → a.contentProtections = []) := by
  intro index sis
  induction sis generalizing index with
  | nil =>
    intro sets h a ha
    simp only [buildAdaptationSets] at h
    injection h with h
    subst h
    exact absurd ha (List.not_mem_nil a)
  | cons si rest ih =>
    intro sets h a ha
    simp only [buildAdaptationSets] at h
    cases hb : buildAdaptationSet avcCodec hasKeys prot psshData timeScale index si with
    | error e =>
      simp only [hb] at h
      exact Except.noConfusion h
    | ok a0 =>
      simp only [hb] at h
      cases hr : buildAdaptationSets avcCodec hasKeys allowSubs prot psshData timeScale
          (index + 1) rest with
      | error e =>
        simp only [hr] at h
        exact Except.noConfusion h
      | ok sets2 =>
        simp only [hr] at h
        by_cases hc : si.type = "text" ∧ allowSubs = false
        · rw [if_pos hc] at h
          injection h with h
          subst h
          exact ih (index + 1) sets2 hr a ha
        · rw [if_neg hc] at h
          injection h with h
          subst h
          rcases List.mem_cons.mp ha with rfl | hmem
          · obtain ⟨hct, hsome, hnone⟩ := buildAdaptationSet_ok hb
            refine ⟨?_, ?_⟩
            · intro ph hph
              simp only [hct]
              exact hsome ph hph
            · exact hnone
          · exact ih (index + 1) sets2 hr a hmem

/-- C7: in the MPD produced by SmoothToDashManifest, a video or audio
    adaptation set carries a ContentProtection element iff has_keys is false
    and a PlayReady protection header is present in the MSS manifest; when
    present it is a single element with scheme urn:uuid followed by the
    lowercased system ID, value MSPR 2.0, an mspr:pro child carrying the raw
    custom data and a cenc:pssh child carrying the base64-encoded synthesized
    pssh box, and exactly in that case the root MPD declares both xmlns:mspr
    and xmlns:cenc. -/
theorem c7_content_protection
    (avcCodec : String → Except String String) (now channelName : String)
    (ism : SmoothStream) (hasKeys allowSubs : Bool) (mpd : MPD)
    (h : smoothToDashManifest avcCodec now channelName ism hasKeys allowSubs = .ok mpd) :
    (∀ per ∈ mpd.period, ∀ a ∈ per.adaptationSets,
        a.contentType = "video" ∨ a.contentType = "audio" →
        (a.contentProtections ≠ [] ↔
          hasKeys = false ∧ getProtectionHeaderForSystemId ism uuidPlayReady ≠ none))
    ∧ (∀ per ∈ mpd.period, ∀ a ∈ per.adaptationSets, ∀ ph,
        getProtectionHeaderForSystemId ism uuidPlayReady = some ph →
        hasKeys = false → (a.contentType = "video" ∨ a.contentType = "audio") →
        ∃ d, base64Decode ph.customData.data = some d ∧
          a.contentProtections =
            [{ value := "MSPR 2.0"
               schemeIDURI := "urn:uuid:" ++ goToLower ph.systemID
               pro := some { xmlns := "urn:microsoft:playready", data := ph.customData }
               pssh := some { xmlns := "urn:mpeg:cenc:2013"
                              data := base64Encode (psshBoxBytes d) } }])
    ∧ ((mpd.xmlnsPlayReady = "urn:microsoft:playready" ∧
        mpd.xmlnsCommonEncryption = "urn:mpeg:cenc:2013") ↔
        hasKeys = false ∧ getProtectionHeaderForSystemId ism uuidPlayReady ≠ none)
    ∧ (¬(hasKeys = false ∧ getProtectionHeaderForSystemId ism uuidPlayReady ≠ none) →
        mpd.xmlnsPlayReady = "" ∧ mpd.xmlnsCommonEncryption = "") := by
  simp only [smoothToDashManifest] at h
  cases hp : generatePsshData (getProtectionHeaderForSystemId ism uuidPlayReady) with
  | error e =>
    simp only [hp] at h
    exact Except.noConfusion h
  | ok psshData =>
    simp only [hp] at h
    cases hs : buildAdaptationSets avcCodec hasKeys allowSubs
        (getProtectionHeaderForSystemId ism uuidPlayReady) psshData ism.timeScale 0
        ism.streamIndexes with
    | error e =>
      simp only [hs] at h
      exact Except.noConfusion h
    | ok sets =>
      simp only [hs] at h
      injection h with h
      subst h
      have hcp := buildAdaptationSets_cp 0 ism.streamIndexes sets hs
      dsimp only
      refine ⟨?_, ?_, ?_, ?_⟩
      · intro per hper a ha hva
        simp only [List.mem_singleton] at hper
        subst hper
        have ha2 : a ∈ sets := ha
        obtain ⟨hsome, hnone⟩ := hcp a ha2
        constructor
        · intro hne
          cases hprot : getProtectionHeaderForSystemId ism uuidPlayReady with
          | none => exact absurd (hnone hprot) hne
          | some ph =>
            refine ⟨?_, by simp [hprot]⟩
            by_cases hk : hasKeys = false
            · exact hk
            · exfalso
              apply hne
              rw [hsome ph hprot]
              rw [if_neg (fun hc => hk hc.1)]
        · rintro ⟨hk, hpne⟩
          cases hprot : getProtectionHeaderForSystemId ism uuidPlayReady with
          | none => exact absurd hprot hpne
          | some ph =>
            rw [hsome ph hprot, if_pos ⟨hk, hva⟩]
            simp
      · intro per hper a ha ph hph hk hva
        simp only [List.mem_singleton] at hper
        subst hper
        have ha2 : a ∈ sets := ha
        obtain ⟨hsome, _⟩ := hcp a ha2
        have hcpa := hsome ph hph
        rw [if_pos ⟨hk, hva⟩] at hcpa
        simp only [generatePsshData, hph] at hp
        cases hd : base64Decode ph.customData.data with
        | none =>
          simp only [hd] at hp
          exact Except.noConfusion hp
        | some d =>
          simp only [hd] at hp
          injection hp with hp
          refine ⟨d, rfl, ?_⟩
          rw [hcpa, ← hp]
          rfl
      · constructor
        · rintro ⟨h1, h2⟩
          by_cases hc : hasKeys = false ∧
              (getProtectionHeaderForSystemId ism uuidPlayReady).isSome
          · exact ⟨hc.1, Option.ne_none_iff_isSome.mpr hc.2⟩
          · rw [if_neg hc] at h1
            exact absurd h1 (by decide)
        · rintro ⟨hk, hpne⟩
          have hc : hasKeys = false ∧
              (getProtectionHeaderForSystemId ism uuidPlayReady).isSome :=
            ⟨hk, Option.ne_none_iff_isSome.mp hpne⟩
          rw [if_pos hc, if_pos hc]
          exact ⟨rfl, rfl⟩
      · intro hncond
        have hc : ¬(hasKeys = false ∧
            (getProtectionHeaderForSystemId ism uuidPlayReady).isSome) :=
          fun hcc => hncond ⟨hcc.1, Option.ne_none_iff_isSome.mpr hcc.2⟩
        rw [if_neg hc, if_neg hc]
        exact ⟨rfl, rfl⟩

/-- Witness for C7 at a concrete protected audio presentation. -/
theorem c7_content_protection_witness :
    (∀ per ∈ c7Mpd.period, ∀ a ∈ per.adaptationSets,
        a.contentType = "video" ∨ a.contentType = "audio" →
        (a.contentProtections ≠ [] ↔
          false = false ∧ getProtectionHeaderForSystemId c7Ism uuidPlayReady ≠ none))
    ∧ (∀ per ∈ c7Mpd.period, ∀ a ∈ per.adaptationSets, ∀ ph,
        getProtectionHeaderForSystemId c7Ism uuidPlayReady = some ph →
        false = false → (a.contentType = "video" ∨ a.contentType = "audio") →
        ∃ d, base64Decode ph.customData.data = some d ∧
          a.contentProtections =
            [{ value := "MSPR 2.0"
               schemeIDURI := "urn:uuid:" ++ goToLower ph.systemID
               pro := some { xmlns := "urn:microsoft:playready", data := ph.customData }
               pssh := some { xmlns := "urn:mpeg:cenc:2013"
                              data := base64Encode (psshBoxBytes d) } }])
    ∧ ((c7Mpd.xmlnsPlayReady = "urn:microsoft:playready" ∧
        c7Mpd.xmlnsCommonEncryption = "urn:mpeg:cenc:2013") ↔
        false = false ∧ getProtectionHeaderForSystemId c7Ism uuidPlayReady ≠ none)
    ∧ (¬(false = false ∧ getProtectionHeaderForSystemId c7Ism uuidPlayReady ≠ none) →
        c7Mpd.xmlnsPlayReady = "" ∧ c7Mpd.xmlnsCommonEncryption = "") :=
  c7_content_protection c7Avc "2025-01-01T00:00:00Z" "test" c7Ism false true c7Mpd (by rfl)

theorem buildAdaptationSets_filter {avcCodec : String → Except String String}
    {hasKeys : Bool} {prot : Option SmoothProtectionHeader}
    {psshData : String} {timeScale : Nat} :
    ∀ (index : Nat) (sis : List StreamIndex),
      buildAdaptationSets avcCodec hasKeys false prot psshData timeScale index sis =
        Except.map (List.filter (fun a => a.contentType != "text"))
          (buildAdaptationSets avcCodec hasKeys true prot psshData timeScale index sis) := by
  intro index sis
  induction sis generalizing index with
  | nil => rfl
  | cons si rest ih =>
    simp only [buildAdaptationSets]
    cases hb : buildAdaptationSet avcCodec hasKeys prot psshData timeScale index si with
    | error e => rfl
    | ok a =>
      cases hr : buildAdaptationSets avcCodec hasKeys true prot psshData timeScale
          (index + 1) rest with
      | error e =>
        have ihe := ih (index + 1)
        rw [hr] at ihe
        simp only [Except.map] at ihe
        rw [ihe]
        rfl
      | ok sets =>
        have ihe := ih (index + 1)
        rw [hr] at ihe
        simp only [Except.map] at ihe
        rw [ihe]
        dsimp only
        have hct := (buildAdaptationSet_ok hb).1
        by_cases htext : si.type = "text"
        · rw [if_pos ⟨htext, trivial⟩]
          rw [if_neg (fun hc => Bool.noConfusion hc.2)]
          simp only [Except.map]
          congr 1
          rw [List.filter_cons]
          simp [hct, htext]
        · rw [if_neg (fun hc => htext hc.1)]
          rw [if_neg (fun hc => Bool.noConfusion hc.2)]
          simp only [Except.map]
          congr 1
          rw [List.filter_cons]
          simp [hct, htext]

/-- C8: with allow_subs false the produced MPD has no text adaptation set,
    and the result is exactly the allow_subs true result with the text
    adaptation sets dropped, so non-text adaptation sets are unaffected. -/
theorem c8_subtitle_toggle
    (avcCodec : String → Except String String) (now channelName : String)
    (ism : SmoothStream) (hasKeys : Bool) :
    (∀ mpd, smoothToDashManifest avcCodec now channelName ism hasKeys false = .ok mpd →
       ∀ per ∈ mpd.period, ∀ a ∈ per.adaptationSets, a.contentType ≠ "text")
    ∧ smoothToDashManifest avcCodec now channelName ism hasKeys false =
        Except.map mpdDropTextAdaptationSets
          (smoothToDashManifest avcCodec now channelName ism hasKeys true) := by
  have hmain : smoothToDashManifest avcCodec now channelName ism hasKeys false =
      Except.map mpdDropTextAdaptationSets
        (smoothToDashManifest avcCodec now channelName ism hasKeys true) := by
    simp only [smoothToDashManifest]
    cases hp : generatePsshData (getProtectionHeaderForSystemId ism uuidPlayReady) with
    | error e => rfl
    | ok psshData =>
      dsimp only
      cases hs : buildAdaptationSets avcCodec hasKeys true
          (getProtectionHeaderForSystemId ism uuidPlayReady) psshData ism.timeScale 0
          ism.streamIndexes with
      | error e =>
        have hf := @buildAdaptationSets_filter avcCodec hasKeys
          (getProtectionHeaderForSystemId ism uuidPlayReady) psshData ism.timeScale
          0 ism.streamIndexes
        rw [hs] at hf
        simp only [Except.map] at hf
        rw [hf]
        rfl
      | ok sets =>
        have hf := @buildAdaptationSets_filter avcCodec hasKeys
          (getProtectionHeaderForSystemId ism uuidPlayReady) psshData ism.timeScale
          0 ism.streamIndexes
        rw [hs] at hf
        simp only [Except.map] at hf
        rw [hf]
        simp [Except.map, mpdDropTextAdaptationSets]
  refine ⟨?_, hmain⟩
  intro mpd hm per hper a ha
  rw [hmain] at hm
  cases ht : smoothToDashManifest avcCodec now channelName ism hasKeys true with
  | error e =>
    rw [ht] at hm
    exact Except.noConfusion hm
  | ok mpdT =>
    rw [ht] at hm
    simp only [Except.map] at hm
    injection hm with hm
    subst hm
    simp only [mpdDropTextAdaptationSets] at hper
    rw [List.mem_map] at hper
    obtain ⟨per0, hper0, rfl⟩ := hper
    have ha2 : a ∈ per0.adaptationSets.filter (fun x => x.contentType != "text") := ha
    have hpa := List.of_mem_filter ha2
    simpa using hpa

/-- Witness for C8 at a concrete presentation with an audio and a text
    stream. -/
theorem c8_subtitle_toggle_witness :
    (∀ mpd, smoothToDashManifest c7Avc "2025-01-01T00:00:00Z" "test" c8Ism false false
        = .ok mpd →
       ∀ per ∈ mpd.period, ∀ a ∈ per.adaptationSets, a.contentType ≠ "text")
    ∧ smoothToDashManifest c7Avc "2025-01-01T00:00:00Z" "test" c8Ism false false =
        Except.map mpdDropTextAdaptationSets
          (smoothToDashManifest c7Avc "2025-01-01T00:00:00Z" "test" c8Ism false true) :=
  c8_subtitle_toggle c7Avc "2025-01-01T00:00:00Z" "test" c8Ism false

end Manifesto
